import Mathlib

/-!
Verification development for the AI Agent Observability Tool
(`integrations/crewai_integration.py`, `core/database.py`, `core/models.py`).

Strings are modelled as `List Char` (ASCII fragment: the Python regular
expression classes `\d`, `\w`, `\s` and the explicit character ranges are
modelled over their ASCII meaning; the observer's sanitizer only distinguishes
these classes).  `re.sub` for each of the six fixed patterns of
`_sanitize_ehr_content` is compiled to a deterministic left-to-right scanner:
at every position the scanner attempts the pattern match exactly as Python's
backtracking engine resolves it for that pattern (all six patterns are
anchored by `\b` on both sides, which makes the resolution deterministic up to
the documented search order for the e-mail pattern).  `uuid.uuid4()` is
modelled as drawing the next identifier from a counter supply, and
`int(time.time())` as an explicit natural-number clock argument; both are
opaque to every property proved here.  Auto-generated row timestamps
(`datetime.utcnow` defaults) play no role in any claim and are omitted from
the row models.
-/

namespace AIObs

/-- Strings of the Python program, modelled as lists of characters. -/
abbrev Str := List Char

/-! ### Character classes (ASCII fragment of Python `re` classes) -/

/-- Python `\d` (ASCII), the range `0`-`9`. -/
def isDigitC (c : Char) : Bool := 48 ≤ c.toNat && c.toNat ≤ 57

/-- ASCII lowercase letter, the class `[a-z]`. -/
def isLowerC (c : Char) : Bool := 97 ≤ c.toNat && c.toNat ≤ 122

/-- ASCII uppercase letter, the class `[A-Z]`. -/
def isUpperC (c : Char) : Bool := 65 ≤ c.toNat && c.toNat ≤ 90

/-- ASCII letter, the class `[A-Za-z]`. -/
def isAlphaC (c : Char) : Bool := isUpperC c || isLowerC c

/-- ASCII letter or digit. -/
def isAlnumC (c : Char) : Bool := isAlphaC c || isDigitC c

/-- Python `\s` (ASCII): space, tab, newline, carriage return, vertical tab,
form feed. -/
def isSpaceC (c : Char) : Bool :=
  c.toNat == 32 || c.toNat == 9 || c.toNat == 10 || c.toNat == 13 ||
    c.toNat == 11 || c.toNat == 12

/-- Python `\w` (ASCII): letters, digits, underscore. -/
def isWordC (c : Char) : Bool := isAlnumC c || c.toNat == 95

/-- Wordness of an optional character; out-of-string counts as non-word,
matching how `\b` treats the ends of the subject string. -/
def wordOpt : Option Char → Bool
  | none => false
  | some c => isWordC c

/-- The e-mail local-part class `[A-Za-z0-9._%+-]`. -/
def localC (c : Char) : Bool :=
  isAlnumC c || c.toNat == 46 || c.toNat == 95 || c.toNat == 37 ||
    c.toNat == 43 || c.toNat == 45

/-- The e-mail domain class `[A-Za-z0-9.-]`. -/
def domC (c : Char) : Bool := isAlnumC c || c.toNat == 46 || c.toNat == 45

/-- The e-mail top-level-domain class `[A-Z|a-z]` (note the literal pipe
character inside the class, faithful to the source pattern). -/
def tldC (c : Char) : Bool := isAlphaC c || c.toNat == 124

/-! ### Per-pattern matchers

Each `try_*` function receives the character preceding the current position
(`none` at the start of the subject) and the remaining subject, and returns
the length of the regex match anchored at the current position (`0` when the
pattern does not match there), resolving greediness and backtracking exactly
as Python's engine does for that pattern. -/

/-- Matcher for `\b\d{3}-\d{2}-\d{4}\b` (SSN). -/
def try_ssn (prev : Option Char) (s : Str) : Nat :=
  match s with
  | c0 :: c1 :: c2 :: c3 :: c4 :: c5 :: c6 :: c7 :: c8 :: c9 :: c10 :: rest =>
    if !wordOpt prev && isDigitC c0 && isDigitC c1 && isDigitC c2 && c3 == '-' &&
        isDigitC c4 && isDigitC c5 && c6 == '-' && isDigitC c7 && isDigitC c8 &&
        isDigitC c9 && isDigitC c10 && !wordOpt rest.head? then 11 else 0
  | _ => 0

/-- Matcher for `\b\d{3}-\d{3}-\d{4}\b` (phone number). -/
def try_phone (prev : Option Char) (s : Str) : Nat :=
  match s with
  | c0 :: c1 :: c2 :: c3 :: c4 :: c5 :: c6 :: c7 :: c8 :: c9 :: c10 :: c11 :: rest =>
    if !wordOpt prev && isDigitC c0 && isDigitC c1 && isDigitC c2 && c3 == '-' &&
        isDigitC c4 && isDigitC c5 && isDigitC c6 && c7 == '-' && isDigitC c8 &&
        isDigitC c9 && isDigitC c10 && isDigitC c11 && !wordOpt rest.head? then 12 else 0
  | _ => 0

/-- Matcher for `\b\d{10,12}\b` (medical record number).  The greedy counted
repetition with a trailing `\b` matches exactly the maximal leading digit run
when its length lies in `[10, 12]` and the following character is non-word. -/
def try_mrn (prev : Option Char) (s : Str) : Nat :=
  let d := (s.takeWhile isDigitC).length
  if !wordOpt prev && 10 ≤ d && d ≤ 12 && !wordOpt (s.dropWhile isDigitC).head? then d else 0

/-- Matcher for `\b\d{1,2}/\d{1,2}/\d{4}\b` (date).  Each `\d{1,2}` is forced
to the full leading digit run (a shorter choice would be followed by a digit,
not `/`), and `\d{4}` requires exactly four digits followed by a non-word
character. -/
def try_date (prev : Option Char) (s : Str) : Nat :=
  if wordOpt prev then 0 else
  let a := s.takeWhile isDigitC
  match s.dropWhile isDigitC with
  | '/' :: u =>
    let b := u.takeWhile isDigitC
    match u.dropWhile isDigitC with
    | '/' :: v =>
      let cd := v.takeWhile isDigitC
      if (1 ≤ a.length && a.length ≤ 2) && (1 ≤ b.length && b.length ≤ 2) &&
          (4 ≤ cd.length) && !wordOpt ((v.drop 4).head?) then
        a.length + 1 + b.length + 1 + 4
      else 0
    | _ => 0
  | _ => 0

/-- Matcher for `\b[A-Z][a-z]+\s+[A-Z][a-z]+\b` (two capitalized words).
All three `+` repetitions are forced to maximal runs because each is followed
by a disjoint class (or `\b`). -/
def try_name (prev : Option Char) (s : Str) : Nat :=
  if wordOpt prev then 0 else
  match s with
  | c :: t =>
    if isUpperC c then
      let l1 := t.takeWhile isLowerC
      if l1.length == 0 then 0 else
      let t1 := t.dropWhile isLowerC
      let sp := t1.takeWhile isSpaceC
      if sp.length == 0 then 0 else
      match t1.dropWhile isSpaceC with
      | d :: u =>
        if isUpperC d then
          let l2 := u.takeWhile isLowerC
          if l2.length == 0 then 0 else
          if wordOpt (u.dropWhile isLowerC).head? then 0 else
          1 + l1.length + sp.length + 1 + l2.length
        else 0
      | [] => 0
    else 0
  | [] => 0

/-- Search for the top-level-domain repetition `[A-Z|a-z]{2,}\b` inside the
suffix `u` that follows the chosen dot: Python's engine tries the counts
`m, m-1, …, 2` (with `m` the maximal class run) and keeps the first whose
following position is a word boundary. -/
def tldSearch (u : Str) : Nat → Nat
  | 0 => 0
  | k + 1 =>
    if 2 ≤ k + 1 && (isWordC (u.getD k ' ') != wordOpt ((u.drop (k + 1)).head?)) then k + 1
    else tldSearch u k

/-- Search for the split `[A-Za-z0-9.-]+\.` inside the text `t` that follows
`@`: Python's engine shrinks the greedy domain run one character at a time, so
it tries every dot position inside the maximal domain-class run from the
rightmost to position 1, and at each dot runs the TLD search. -/
def domSearch (t : Str) : Nat → Nat
  | 0 => 0
  | j + 1 =>
    if t.getD j ' ' == '.' && 1 ≤ j then
      let u := t.drop (j + 1)
      let k := tldSearch u (u.takeWhile tldC).length
      if k == 0 then domSearch t j else j + 1 + k
    else domSearch t j

/-- Matcher for `\b[A-Za-z0-9._%+-]+@[A-Za-z0-9.-]+\.[A-Z|a-z]{2,}\b`
(e-mail).  The local part is forced to the maximal class run (the class
excludes `@`); the domain/TLD split is found by `domSearch`/`tldSearch`. -/
def try_email (prev : Option Char) (s : Str) : Nat :=
  let loc := s.takeWhile localC
  match loc.head? with
  | none => 0
  | some h =>
    if wordOpt prev == isWordC h then 0 else
    match s.dropWhile localC with
    | '@' :: t =>
      let r := (t.takeWhile domC).length
      let dk := domSearch t r
      if dk == 0 then 0 else loc.length + 1 + dk
    | _ => 0

/-! ### The substitution scanner

`subScanF` is `re.sub` compiled to a fuel-indexed scanner (fuel at least the
subject length; `subScan` supplies exactly the length).  `prev` is the
character of the **original** subject preceding the current position, which is
what Python's `\b` consults; after a match the scanner continues after the
matched text, with `prev` the last matched character. -/

def subScanF (tryf : Option Char → Str → Nat) (repl : Str) :
    Nat → Option Char → Str → Str
  | _, _, [] => []
  | 0, _, s => s
  | fuel + 1, prev, c :: cs =>
    let n := tryf prev (c :: cs)
    if n = 0 then c :: subScanF tryf repl fuel (some c) cs
    else repl ++ subScanF tryf repl fuel ((List.take n (c :: cs)).getLast?) (List.drop n (c :: cs))

/-- One full `re.sub` pass over the subject. -/
def subScan (tryf : Option Char → Str → Nat) (repl : Str) (s : Str) : Str :=
  subScanF tryf repl s.length none s

def sub_ssn (s : Str) : Str := subScan try_ssn ("[SSN]".toList) s

def sub_mrn (s : Str) : Str := subScan try_mrn ("[MRN]".toList) s

def sub_date (s : Str) : Str := subScan try_date ("[DATE]".toList) s

def sub_name (s : Str) : Str := subScan try_name ("[PATIENT_NAME]".toList) s

def sub_phone (s : Str) : Str := subScan try_phone ("[PHONE]".toList) s

def sub_email (s : Str) : Str := subScan try_email ("[EMAIL]".toList) s

/-- The six substitutions of `_sanitize_ehr_content`, in source order. -/
def substituteAll (s : Str) : Str :=
  sub_email (sub_phone (sub_name (sub_date (sub_mrn (sub_ssn s)))))

/-- `CrewAIObserver._sanitize_ehr_content`: empty input short-circuits to
empty output; otherwise the six substitutions run in order and the result is
truncated at 500 characters with a `...[TRUNCATED]` marker. -/
def sanitize_ehr_content (s : Str) : Str :=
  if s = [] then []
  else
    let c := substituteAll s
    if 500 < c.length then c.take 500 ++ "...[TRUNCATED]".toList else c

/-- `CrewAIObserver._sanitize_task_description`: sanitize, then hard cap at
200 characters. -/
def sanitize_task_description (t : Str) : Str :=
  (sanitize_ehr_content t).take 200

/-! ### Task classification -/

/-- Needle-at-front test used by `containsSeq` (Python `in` on strings). -/
def seqStartsWith : Str → Str → Bool
  | [], _ => true
  | _ :: _, [] => false
  | a :: u, b :: v => a == b && seqStartsWith u v

/-- Python's substring containment `needle in hay`. -/
def containsSeq (needle : Str) : Str → Bool
  | [] => seqStartsWith needle []
  | c :: cs => seqStartsWith needle (c :: cs) || containsSeq needle cs

/-- ASCII lower-casing of a string (Python `str.lower` on the fragment the
classifier cares about). -/
def lowerStr (s : Str) : Str := s.map Char.toLower

/-- `CrewAIObserver._classify_task`. -/
def classify_task (task : Str) : Str :=
  let tl := lowerStr task
  if containsSeq "analyze".toList tl || containsSeq "review".toList tl then "ANALYSIS".toList
  else if containsSeq "extract".toList tl || containsSeq "parse".toList tl then "EXTRACTION".toList
  else if containsSeq "summarize".toList tl || containsSeq "summary".toList tl then "SUMMARIZATION".toList
  else if containsSeq "validate".toList tl || containsSeq "check".toList tl then "VALIDATION".toList
  else "GENERAL".toList

/-! ### Data model (`core/models.py`)

Only the fields the observer writes are modelled; auto-generated timestamps
(`datetime.utcnow` defaults) are omitted as they play no role in any claim. -/

inductive AgentStatus where
  | active
  | idle
  | error
  | offline
deriving DecidableEq

inductive MessageRole where
  | user
  | assistant
  | system
  | tool
deriving DecidableEq

inductive EventType where
  | info
  | warning
  | error
  | debug
deriving DecidableEq

/-- JSON-serializable metadata values (the fragment the observer produces). -/
inductive Value where
  | s (v : Str)
  | n (v : Nat)
  | q (v : ℚ)
  | b (v : Bool)
  | strList (v : List Str)
  | dict (v : List (Str × Value))

/-- Python-dict lookup on an insertion-ordered association list. -/
def dictGet {α : Type} (d : List (Str × α)) (k : Str) : Option α :=
  (d.find? (fun kv => kv.1 == k)).map (·.2)

/-- Python-dict assignment `d[k] = v`: replace in place when the key exists,
append otherwise.  (Association lists built by this function have unique keys,
matching Python dicts.) -/
def dictSet {α : Type} : List (Str × α) → Str → α → List (Str × α)
  | [], k, v => [(k, v)]
  | kv :: tl, k, v => if kv.1 == k then (k, v) :: tl else kv :: dictSet tl k v

/-- Python-dict deletion guarded by membership
(`if k in d: del d[k]` deletes the binding; absent keys are untouched). -/
def dictDel {α : Type} (d : List (Str × α)) (k : Str) : List (Str × α) :=
  d.filter (fun kv => !(kv.1 == k))

structure AgentSessionRow where
  id : Str
  agent_name : Str
  status : AgentStatus
  end_time : Option Nat
  configuration : List (Str × Value)
  metadata : List (Str × Value)

structure ConversationRow where
  id : Str
  session_id : Str
  context : List (Str × Value)

structure MessageRow where
  id : Str
  conversation_id : Str
  role : MessageRole
  content : Str
  metadata : List (Str × Value)

structure MetricsRow where
  id : Str
  session_id : Str
  conversation_id : Option Str
  response_time_ms : ℚ
  token_count_input : Nat
  token_count_output : Nat
  success_rate : ℚ
  error_count : Nat
  resource_usage : List (Str × Value)
  quality_score : Option ℚ

structure SystemEventRow where
  id : Str
  event_type : EventType
  session_id : Option Str
  conversation_id : Option Str
  message : Str
  details : List (Str × Value)
  stack_trace : Option Str

/-- The SQLite store of `core/database.py`: every `create_*`/`add_*` operation
is an append-only insert (committed synchronously). -/
structure DB where
  sessions : List AgentSessionRow
  conversations : List ConversationRow
  messages : List MessageRow
  metrics : List MetricsRow
  events : List SystemEventRow

/-- The empty store. -/
def DB.empty : DB := ⟨[], [], [], [], []⟩

/-- Result row of `DatabaseManager.get_metrics_summary`.  SQL aggregates over
an empty (or fully filtered-out) table return one row with `COUNT(*) = 0` and
`NULL` for every `AVG`/`SUM`; `AVG(quality_score)` ignores `NULL` values. -/
structure MetricsSummary where
  total_requests : Nat
  avg_response_time : Option ℚ
  avg_success_rate : Option ℚ
  total_input_tokens : Option Nat
  total_output_tokens : Option Nat
  avg_quality_score : Option ℚ
deriving DecidableEq

/-- Rows selected by `get_metrics_summary`'s optional session filter.  Python
truthiness: an empty-string `session_id` argument disables the filter, exactly
like `None`. -/
def metricsRowsFor (db : DB) (session_id : Option Str) : List MetricsRow :=
  match session_id with
  | none => db.metrics
  | some sid => if sid = [] then db.metrics else db.metrics.filter (fun m => m.session_id == sid)

/-- `DatabaseManager.get_metrics_summary`. -/
def get_metrics_summary (db : DB) (session_id : Option Str) : MetricsSummary :=
  let rows := metricsRowsFor db session_id
  { total_requests := rows.length
    avg_response_time :=
      if rows.isEmpty then none else some ((rows.map (·.response_time_ms)).sum / rows.length)
    avg_success_rate :=
      if rows.isEmpty then none else some ((rows.map (·.success_rate)).sum / rows.length)
    total_input_tokens :=
      if rows.isEmpty then none else some (rows.map (·.token_count_input)).sum
    total_output_tokens :=
      if rows.isEmpty then none else some (rows.map (·.token_count_output)).sum
    avg_quality_score :=
      let qs := rows.filterMap (·.quality_score)
      if qs.isEmpty then none else some (qs.sum / qs.length) }

/-! ### The integration observer (`integrations/crewai_integration.py`) -/

/-- In-memory tracking state of a `CrewAIObserver` instance. -/
structure CrewAIObserver where
  project_name : Str
  active_sessions : List (Str × Str)
  conversation_contexts : List (Str × Str)

/-- A fresh observer (`CrewAIObserver.__init__`). -/
def CrewAIObserver.fresh (project : Str) : CrewAIObserver := ⟨project, [], []⟩

/-- Combined system state: observer instance, store, and the supply counter
modelling `uuid.uuid4()`. -/
structure Sys where
  obs : CrewAIObserver
  db : DB
  nextId : Nat

/-- The next identifier from the uuid supply. -/
def mkUuid (n : Nat) : Str := 'u' :: Nat.toDigits 10 n

/-- `CrewAIObserver._get_session_id`: iterate the tracking map in insertion
order and return the first session whose key contains the crew name as a
substring. -/
def get_session_id (obs : CrewAIObserver) (crew_name : Str) : Option Str :=
  (obs.active_sessions.find? (fun kv => containsSeq crew_name kv.1)).map (·.2)

/-- The tracking key `f"crew_\x7bcrew_name\x7d_\x7bint(time.time())\x7d"`. -/
def crewKey (crew_name : Str) (now : Nat) : Str :=
  "crew_".toList ++ crew_name ++ "_".toList ++ Nat.toDigits 10 now

/-- The conversation-context key
`f"\x7bsession_id\x7d_\x7bagent_name\x7d_\x7bcategory\x7d"`. -/
def convKey (session_id agent_name : Str) (task : Str) : Str :=
  session_id ++ "_".toList ++ agent_name ++ "_".toList ++ classify_task task

/-- Keys whose values `_sanitize_metadata` redacts outright. -/
def denyKeys : List Str :=
  ["patient_id".toList, "ssn".toList, "name".toList, "email".toList, "phone".toList]

/-- `CrewAIObserver._sanitize_metadata`. -/
def sanitize_metadata (md : List (Str × Value)) : List (Str × Value) :=
  md.map (fun kv =>
    if denyKeys.contains (lowerStr kv.1) then (kv.1, Value.s "[REDACTED]".toList)
    else
      match kv.2 with
      | Value.s v => (kv.1, Value.s (sanitize_ehr_content v))
      | v => (kv.1, v))

/-- `CrewAIObserver.start_crew_session`.  Returns the new session id and the
updated state; `now` models `int(time.time())`. -/
def start_crew_session (now : Nat) (crew_name : Str) (agents : List Str) (tasks : List Str)
    (metadata : List (Str × Value)) (s : Sys) : Str × Sys :=
  let session_id := mkUuid s.nextId
  let crew_id := crewKey crew_name now
  let safe_metadata :=
    dictSet (dictSet (dictSet (dictSet (dictSet (dictSet (sanitize_metadata metadata)
      "project".toList (Value.s s.obs.project_name))
      "agent_count".toList (Value.n agents.length))
      "task_count".toList (Value.n tasks.length))
      "agents".toList (Value.strList agents))
      "data_type".toList (Value.s "EHR".toList))
      "privacy_level".toList (Value.s "HIPAA_COMPLIANT".toList)
  let session : AgentSessionRow :=
    { id := session_id
      agent_name := "CrewAI: ".toList ++ crew_name
      status := AgentStatus.active
      end_time := none
      configuration :=
        [("framework".toList, Value.s "CrewAI".toList),
         ("agents".toList, Value.strList agents),
         ("task_descriptions".toList, Value.strList (tasks.map sanitize_task_description))]
      metadata := safe_metadata }
  let ev : SystemEventRow :=
    { id := mkUuid (s.nextId + 1)
      event_type := EventType.info
      session_id := some session_id
      conversation_id := none
      message := "Started CrewAI session: ".toList ++ crew_name
      details := [("agents".toList, Value.strList agents), ("tasks_count".toList, Value.n tasks.length)]
      stack_trace := none }
  (session_id,
    { obs := { s.obs with active_sessions := dictSet s.obs.active_sessions crew_id session_id }
      db := { s.db with
        sessions := s.db.sessions ++ [session]
        events := s.db.events ++ [ev] }
      nextId := s.nextId + 2 })

/-- `CrewAIObserver._get_or_create_conversation`. -/
def get_or_create_conversation (session_id agent_name : Str) (task : Str) (s : Sys) : Str × Sys :=
  let key := convKey session_id agent_name task
  match dictGet s.obs.conversation_contexts key with
  | some cid => (cid, s)
  | none =>
    let cid := mkUuid s.nextId
    let conv : ConversationRow :=
      { id := cid
        session_id := session_id
        context :=
          [("agent".toList, Value.s agent_name),
           ("task_category".toList, Value.s (classify_task task)),
           ("data_type".toList, Value.s "EHR_SANITIZED".toList)] }
    (cid,
      { obs := { s.obs with conversation_contexts := dictSet s.obs.conversation_contexts key cid }
        db := { s.db with conversations := s.db.conversations ++ [conv] }
        nextId := s.nextId + 1 })

/-- `CrewAIObserver.log_agent_interaction`. -/
def log_agent_interaction (crew_name agent_name : Str) (task input_data response : Str)
    (execution_time_ms : ℚ) (token_usage : Option (List (Str × Nat))) (s : Sys) : Sys :=
  match get_session_id s.obs crew_name with
  | none => s
  | some session_id =>
    let (conversation_id, s1) := get_or_create_conversation session_id agent_name task s
    let safe_input := sanitize_ehr_content input_data
    let safe_response := sanitize_ehr_content response
    let user_message : MessageRow :=
      { id := mkUuid s1.nextId
        conversation_id := conversation_id
        role := MessageRole.user
        content := "Task: ".toList ++ sanitize_task_description task ++
          "\nInput: ".toList ++ safe_input
        metadata :=
          [("agent".toList, Value.s agent_name),
           ("task_type".toList, Value.s (classify_task task)),
           ("data_classification".toList, Value.s "SANITIZED_EHR".toList)] }
    let agent_message : MessageRow :=
      { id := mkUuid (s1.nextId + 1)
        conversation_id := conversation_id
        role := MessageRole.assistant
        content := safe_response
        metadata :=
          [("agent".toList, Value.s agent_name),
           ("execution_time_ms".toList, Value.q execution_time_ms),
           ("data_classification".toList, Value.s "SANITIZED_EHR".toList)] }
    let met : MetricsRow :=
      { id := mkUuid (s1.nextId + 2)
        session_id := session_id
        conversation_id := some conversation_id
        response_time_ms := execution_time_ms
        token_count_input :=
          match token_usage with
          | some tu => (dictGet tu "input".toList).getD 0
          | none => 0
        token_count_output :=
          match token_usage with
          | some tu => (dictGet tu "output".toList).getD 0
          | none => 0
        success_rate := 1
        error_count := 0
        resource_usage :=
          [("agent".toList, Value.s agent_name),
           ("task_category".toList, Value.s (classify_task task))]
        quality_score := none }
    { s1 with
      db := { s1.db with
        messages := s1.db.messages ++ [user_message, agent_message]
        metrics := s1.db.metrics ++ [met] }
      nextId := s1.nextId + 3 }

/-- Failure of the storage layer: a failing SQLite write raises, and nothing
in the observer catches it. -/
inductive StorageErr where
  | unavailable
deriving DecidableEq

/-- `CrewAIObserver.log_error`.  The exception argument is modelled by its
`str(error)` rendering and its type name; `writeOk` is the outcome of the
underlying `db.add_event` insert (`false` = the write raises, and the
exception propagates out of `log_error`, which has no handler). -/
def log_error (writeOk : Bool) (crew_name agent_name : Str) (errStr errType : Str)
    (context : List (Str × Value)) (s : Sys) : Except StorageErr Sys :=
  match get_session_id s.obs crew_name with
  | none => Except.ok s
  | some session_id =>
    let safe_context := sanitize_metadata context
    let ev : SystemEventRow :=
      { id := mkUuid s.nextId
        event_type := EventType.error
        session_id := some session_id
        conversation_id := none
        message := "Error in agent ".toList ++ agent_name ++ ": ".toList ++
          errStr.take 200 ++ "...".toList
        details :=
          [("agent".toList, Value.s agent_name),
           ("error_type".toList, Value.s errType),
           ("context".toList, Value.dict safe_context)]
        stack_trace := some (errStr.take 1000) }
    if writeOk then
      Except.ok { s with db := { s.db with events := s.db.events ++ [ev] }, nextId := s.nextId + 1 }
    else Except.error StorageErr.unavailable

/-- `CrewAIObserver.end_crew_session`; `now` models the `int(time.time())`
evaluated during this call.  The in-memory status/end-time mutation of the
fetched session copy is not written back (source comment: "In a real
implementation, you'd update the session in the database"), so it has no
observable effect and is not modelled.  Note the cleanup recomputes the
tracking key with the current time. -/
def end_crew_session (now : Nat) (crew_name : Str) (success : Bool) (summary : Str)
    (s : Sys) : Sys :=
  match get_session_id s.obs crew_name with
  | none => s
  | some session_id =>
    let ev : SystemEventRow :=
      { id := mkUuid s.nextId
        event_type := if success then EventType.info else EventType.error
        session_id := some session_id
        conversation_id := none
        message := "Completed CrewAI session: ".toList ++ crew_name
        details :=
          [("success".toList, Value.b success),
           ("summary".toList, Value.s ((sanitize_ehr_content summary).take 500))]
        stack_trace := none }
    let crew_id := crewKey crew_name now
    { obs := { s.obs with active_sessions := dictDel s.obs.active_sessions crew_id }
      db := { s.db with events := s.db.events ++ [ev] }
      nextId := s.nextId + 1 }


/-! ### Association-list lemmas -/

theorem dictGet_cons_pos {α : Type} (hd : Str × α) (tl : List (Str × α)) (k : Str)
    (h : (hd.1 == k) = true) : dictGet (hd :: tl) k = some hd.2 := by
  simp only [dictGet, List.find?_cons, h, Option.map_some']

theorem dictGet_cons_neg {α : Type} (hd : Str × α) (tl : List (Str × α)) (k : Str)
    (h : (hd.1 == k) = false) : dictGet (hd :: tl) k = dictGet tl k := by
  simp only [dictGet, List.find?_cons, h]

theorem dictGet_dictSet_self {α : Type} (d : List (Str × α)) (k : Str) (v : α) :
    dictGet (dictSet d k v) k = some v := by
  induction d with
  | nil => exact dictGet_cons_pos (k, v) [] k (by simp)
  | cons hd tl ih =>
    by_cases hh : (hd.1 == k) = true
    · unfold dictSet
      rw [if_pos hh]
      exact dictGet_cons_pos (k, v) tl k (by simp)
    · unfold dictSet
      rw [if_neg hh]
      rw [dictGet_cons_neg hd _ k (by simpa using hh)]
      exact ih

theorem dictGet_dictSet_other {α : Type} (d : List (Str × α)) (k k' : Str) (v : α)
    (hne : k ≠ k') : dictGet (dictSet d k v) k' = dictGet d k' := by
  induction d with
  | nil =>
    unfold dictSet
    rw [dictGet_cons_neg (k, v) [] k' (by simpa using hne)]
  | cons hd tl ih =>
    by_cases hh : (hd.1 == k) = true
    · unfold dictSet
      rw [if_pos hh]
      have hd1 : hd.1 = k := by simpa using hh
      by_cases hh' : (hd.1 == k') = true
      · exact absurd (by simpa [hd1] using hh' : k = k') hne
      · rw [dictGet_cons_neg (k, v) tl k' (by simpa using hne),
          dictGet_cons_neg hd tl k' (by simpa using hh')]
    · unfold dictSet
      rw [if_neg hh]
      by_cases hh' : (hd.1 == k') = true
      · rw [dictGet_cons_pos _ _ k' hh', dictGet_cons_pos hd tl k' hh']
      · rw [dictGet_cons_neg _ _ k' (by simpa using hh'),
          dictGet_cons_neg hd tl k' (by simpa using hh')]
        exact ih

/-- Session resolution only reads the `active_sessions` map. -/
theorem get_session_id_congr (obs1 obs2 : CrewAIObserver) (crew : Str)
    (h : obs1.active_sessions = obs2.active_sessions) :
    get_session_id obs1 crew = get_session_id obs2 crew := by
  unfold get_session_id
  rw [h]

/-! ### Claim C2 — untracked crew names make the observer a no-op -/

/-- Claim C2: any observer operation other than `startSession`
(`logInteraction`, `logError`, `endSession`) invoked with a crew name that
resolves to no tracked session is a silent no-op: the state (hence the store)
is unchanged and no failure is possible, whatever the storage write outcome
would have been. -/
theorem untracked_crew_noop (crew agent task inp resp : Str) (t : ℚ)
    (tok : Option (List (Str × Nat))) (now : Nat) (success : Bool) (summary : Str)
    (estr ety : Str) (ctx : List (Str × Value)) (wk : Bool) (s : Sys)
    (h : get_session_id s.obs crew = none) :
    log_agent_interaction crew agent task inp resp t tok s = s ∧
    end_crew_session now crew success summary s = s ∧
    log_error wk crew agent estr ety ctx s = Except.ok s := by
  refine ⟨?_, ?_, ?_⟩
  · unfold log_agent_interaction
    rw [h]
  · unfold end_crew_session
    rw [h]
  · unfold log_error
    rw [h]

/-- Witness for claim C2 at a fresh observer and the crew name `"c"`. -/
theorem untracked_crew_noop_witness :
    get_session_id (CrewAIObserver.fresh "EHR Processing".toList) "c".toList = none ∧
    (log_agent_interaction "c".toList "a".toList "t".toList "i".toList "r".toList 5 none
        ⟨CrewAIObserver.fresh "EHR Processing".toList, DB.empty, 0⟩ =
      ⟨CrewAIObserver.fresh "EHR Processing".toList, DB.empty, 0⟩ ∧
    end_crew_session 7 "c".toList true [] ⟨CrewAIObserver.fresh "EHR Processing".toList, DB.empty, 0⟩ =
      ⟨CrewAIObserver.fresh "EHR Processing".toList, DB.empty, 0⟩ ∧
    log_error false "c".toList "a".toList [] [] [] ⟨CrewAIObserver.fresh "EHR Processing".toList, DB.empty, 0⟩ =
      Except.ok ⟨CrewAIObserver.fresh "EHR Processing".toList, DB.empty, 0⟩) :=
  ⟨rfl, untracked_crew_noop "c".toList "a".toList "t".toList "i".toList "r".toList 5 none
    7 true [] [] [] [] false ⟨CrewAIObserver.fresh "EHR Processing".toList, DB.empty, 0⟩ rfl⟩

/-! ### Claim C1 — the session-end cleanup bug -/

/-- Claim C1 evaluation at the failing input: a session started for crew `"c"`
at clock second 10 and ended at clock second 11 keeps its tracking entry
(`end_crew_session` recomputes the key with the current time, so the deletion
misses the entry stored under the start-time key), and a second
`end_crew_session` at second 12 is **not** a no-op: it writes a second
completion `SystemEvent`.  This contradicts the claim (entry removed, second
call a no-op); the code's own cleanup step plainly intends the removal, so the
code, not the claim, is judged wrong. -/
theorem end_crew_session_stale_key_bug :
    (end_crew_session 11 "c".toList true []
        (start_crew_session 10 "c".toList [] [] []
          ⟨CrewAIObserver.fresh "EHR Processing".toList, DB.empty, 0⟩).2).obs.active_sessions =
      (start_crew_session 10 "c".toList [] [] []
        ⟨CrewAIObserver.fresh "EHR Processing".toList, DB.empty, 0⟩).2.obs.active_sessions ∧
    (end_crew_session 12 "c".toList true []
        (end_crew_session 11 "c".toList true []
          (start_crew_session 10 "c".toList [] [] []
            ⟨CrewAIObserver.fresh "EHR Processing".toList, DB.empty, 0⟩).2)).db.events.length =
      (end_crew_session 11 "c".toList true []
        (start_crew_session 10 "c".toList [] [] []
          ⟨CrewAIObserver.fresh "EHR Processing".toList, DB.empty, 0⟩).2).db.events.length + 1 :=
  ⟨rfl, rfl⟩

/-! ### Claim C4 — rows persisted by one tracked `logInteraction` -/

/-- Claim C4: every `logInteraction` on a tracked crew persists exactly two
messages — a user message with content
`"Task: " ++ sanitizeTaskDescription task ++ "\nInput: " ++ sanitizeContent inp`
and an assistant message with content `sanitizeContent resp` — plus exactly
one metrics row whose `response_time_ms` is the given execution time and whose
`success_rate` is fixed at 1.0. -/
theorem log_interaction_rows (crew agent task inp resp : Str) (t : ℚ)
    (tok : Option (List (Str × Nat))) (s : Sys) (sid : Str)
    (hsid : get_session_id s.obs crew = some sid) :
    ∃ (u a : MessageRow) (m : MetricsRow),
      (log_agent_interaction crew agent task inp resp t tok s).db.messages =
          s.db.messages ++ [u, a] ∧
      u.role = MessageRole.user ∧
      u.content = "Task: ".toList ++ sanitize_task_description task ++
        "\nInput: ".toList ++ sanitize_ehr_content inp ∧
      a.role = MessageRole.assistant ∧
      a.content = sanitize_ehr_content resp ∧
      (log_agent_interaction crew agent task inp resp t tok s).db.metrics =
          s.db.metrics ++ [m] ∧
      m.response_time_ms = t ∧
      m.success_rate = 1 := by
  cases hkey : dictGet s.obs.conversation_contexts (convKey sid agent task) with
  | none =>
    simp only [log_agent_interaction, get_or_create_conversation, hsid, hkey]
    exact ⟨_, _, _, rfl, rfl, rfl, rfl, rfl, rfl, rfl, rfl⟩
  | some cid =>
    simp only [log_agent_interaction, get_or_create_conversation, hsid, hkey]
    exact ⟨_, _, _, rfl, rfl, rfl, rfl, rfl, rfl, rfl, rfl⟩

/-- Witness for claim C4: a concrete tracked interaction. -/
theorem log_interaction_rows_witness :
    get_session_id (Sys.mk ⟨"P".toList, [("crew_c_10".toList, "u0".toList)], []⟩ DB.empty 1).obs
        "c".toList = some "u0".toList ∧
    ∃ (u a : MessageRow) (m : MetricsRow),
      (log_agent_interaction "c".toList "a".toList "t".toList "i".toList "r".toList 5 none
          (Sys.mk ⟨"P".toList, [("crew_c_10".toList, "u0".toList)], []⟩ DB.empty 1)).db.messages =
          (Sys.mk ⟨"P".toList, [("crew_c_10".toList, "u0".toList)], []⟩ DB.empty 1).db.messages ++ [u, a] ∧
      u.role = MessageRole.user ∧
      u.content = "Task: ".toList ++ sanitize_task_description "t".toList ++
        "\nInput: ".toList ++ sanitize_ehr_content "i".toList ∧
      a.role = MessageRole.assistant ∧
      a.content = sanitize_ehr_content "r".toList ∧
      (log_agent_interaction "c".toList "a".toList "t".toList "i".toList "r".toList 5 none
          (Sys.mk ⟨"P".toList, [("crew_c_10".toList, "u0".toList)], []⟩ DB.empty 1)).db.metrics =
          (Sys.mk ⟨"P".toList, [("crew_c_10".toList, "u0".toList)], []⟩ DB.empty 1).db.metrics ++ [m] ∧
      m.response_time_ms = 5 ∧
      m.success_rate = 1 :=
  ⟨rfl, log_interaction_rows "c".toList "a".toList "t".toList "i".toList "r".toList 5 none
    (Sys.mk ⟨"P".toList, [("crew_c_10".toList, "u0".toList)], []⟩ DB.empty 1) "u0".toList rfl⟩

/-! ### Claim C7 — task classification -/

/-- Claim C7: `classifyTask` returns exactly one of the five categories for
every description, chosen by lower-cased keyword containment in the fixed
priority order analyze/review, extract/parse, summarize/summary,
validate/check, else GENERAL; in particular
`classifyTask "Analyze extracted data" = ANALYSIS` (analyze checked before
extract). -/
theorem classify_task_spec (d : Str) :
    (classify_task d = "ANALYSIS".toList ∨ classify_task d = "EXTRACTION".toList ∨
      classify_task d = "SUMMARIZATION".toList ∨ classify_task d = "VALIDATION".toList ∨
      classify_task d = "GENERAL".toList) ∧
    (classify_task d = "ANALYSIS".toList ↔
      (containsSeq "analyze".toList (lowerStr d) || containsSeq "review".toList (lowerStr d)) = true) ∧
    (classify_task d = "EXTRACTION".toList ↔
      (containsSeq "analyze".toList (lowerStr d) || containsSeq "review".toList (lowerStr d)) = false ∧
      (containsSeq "extract".toList (lowerStr d) || containsSeq "parse".toList (lowerStr d)) = true) ∧
    (classify_task d = "SUMMARIZATION".toList ↔
      (containsSeq "analyze".toList (lowerStr d) || containsSeq "review".toList (lowerStr d)) = false ∧
      (containsSeq "extract".toList (lowerStr d) || containsSeq "parse".toList (lowerStr d)) = false ∧
      (containsSeq "summarize".toList (lowerStr d) || containsSeq "summary".toList (lowerStr d)) = true) ∧
    (classify_task d = "VALIDATION".toList ↔
      (containsSeq "analyze".toList (lowerStr d) || containsSeq "review".toList (lowerStr d)) = false ∧
      (containsSeq "extract".toList (lowerStr d) || containsSeq "parse".toList (lowerStr d)) = false ∧
      (containsSeq "summarize".toList (lowerStr d) || containsSeq "summary".toList (lowerStr d)) = false ∧
      (containsSeq "validate".toList (lowerStr d) || containsSeq "check".toList (lowerStr d)) = true) ∧
    (classify_task d = "GENERAL".toList ↔
      (containsSeq "analyze".toList (lowerStr d) || containsSeq "review".toList (lowerStr d)) = false ∧
      (containsSeq "extract".toList (lowerStr d) || containsSeq "parse".toList (lowerStr d)) = false ∧
      (containsSeq "summarize".toList (lowerStr d) || containsSeq "summary".toList (lowerStr d)) = false ∧
      (containsSeq "validate".toList (lowerStr d) || containsSeq "check".toList (lowerStr d)) = false) ∧
    classify_task "Analyze extracted data".toList = "ANALYSIS".toList := by
  have hconc : classify_task "Analyze extracted data".toList = "ANALYSIS".toList := by decide
  refine ⟨?_, ?_, ?_, ?_, ?_, ?_, hconc⟩ <;>
  · simp only [classify_task]
    cases h1 : (containsSeq "analyze".toList (lowerStr d) || containsSeq "review".toList (lowerStr d)) <;>
    cases h2 : (containsSeq "extract".toList (lowerStr d) || containsSeq "parse".toList (lowerStr d)) <;>
    cases h3 : (containsSeq "summarize".toList (lowerStr d) || containsSeq "summary".toList (lowerStr d)) <;>
    cases h4 : (containsSeq "validate".toList (lowerStr d) || containsSeq "check".toList (lowerStr d)) <;>
    simp +decide [h1, h2, h3, h4]

/-! ### Claim C8 — `logError` and storage failures -/

/-- Counterexample to claim C8 as stated: with a tracked crew and a failing
`add_event` write (which `log_error` does not guard), the storage failure
escapes `log_error`. -/
theorem log_error_raises_on_write_failure :
    log_error false "c".toList "a".toList [] [] []
        ⟨⟨"P".toList, [("crew_c_10".toList, "u0".toList)], []⟩, DB.empty, 5⟩ =
      Except.error StorageErr.unavailable := rfl

/-- Amended claim C8: `logError` raises no exception of its own — it is a
no-op for untracked crews and completes normally whenever the single
underlying `add_event` write succeeds; only a failing storage write
propagates. -/
theorem log_error_ok_unless_write_fails (wk : Bool) (crew agent estr ety : Str)
    (ctx : List (Str × Value)) (s : Sys)
    (h : wk = true ∨ get_session_id s.obs crew = none) :
    ∃ s', log_error wk crew agent estr ety ctx s = Except.ok s' := by
  unfold log_error
  cases hg : get_session_id s.obs crew with
  | none => exact ⟨s, rfl⟩
  | some sid =>
    rcases h with h | h
    · subst h
      exact ⟨_, rfl⟩
    · rw [h] at hg
      cases hg

/-- Witness for the amended claim C8: a tracked crew with a succeeding write. -/
theorem log_error_ok_unless_write_fails_witness :
    (true = true ∨ get_session_id
        (Sys.mk ⟨"P".toList, [("crew_c_10".toList, "u0".toList)], []⟩ DB.empty 5).obs "c".toList = none) ∧
    ∃ s', log_error true "c".toList "a".toList [] [] []
        (Sys.mk ⟨"P".toList, [("crew_c_10".toList, "u0".toList)], []⟩ DB.empty 5) = Except.ok s' :=
  ⟨Or.inl rfl, log_error_ok_unless_write_fails true "c".toList "a".toList [] []
    [] (Sys.mk ⟨"P".toList, [("crew_c_10".toList, "u0".toList)], []⟩ DB.empty 5) (Or.inl rfl)⟩

/-! ### Claim C9 — metrics summary over no matching rows -/

/-- Claim C9: `getMetricsSummary` on a store with no matching
performance-metrics rows (empty store, or a session filter matching no rows)
returns the zero/empty aggregate — `COUNT(*) = 0` and `NULL` for every
average and sum — and is total (no error). -/
theorem metrics_summary_empty (db : DB) (sid : Option Str)
    (h : metricsRowsFor db sid = []) :
    get_metrics_summary db sid = ⟨0, none, none, none, none, none⟩ := by
  unfold get_metrics_summary
  rw [h]
  simp

/-- Witness for claim C9: the empty store under a session filter. -/
theorem metrics_summary_empty_witness :
    metricsRowsFor DB.empty (some "x".toList) = [] ∧
    get_metrics_summary DB.empty (some "x".toList) = ⟨0, none, none, none, none, none⟩ :=
  ⟨rfl, metrics_summary_empty DB.empty (some "x".toList) rfl⟩

/-! ### Claim C10 — provenance block overwrites caller metadata -/

/-- Claim C10: `startSession` merges the fixed provenance block into the
sanitized caller metadata afterwards, so the persisted session metadata maps
`project`, `agent_count`, `task_count`, `agents`, `data_type` and
`privacy_level` to the provenance values — in particular `agents` is always
the raw, unsanitized agent-name list — for every caller metadata mapping. -/
theorem start_session_provenance (now : Nat) (crew : Str) (agents tasks : List Str)
    (metadata : List (Str × Value)) (s : Sys) :
    ∃ row : AgentSessionRow,
      (start_crew_session now crew agents tasks metadata s).2.db.sessions =
        s.db.sessions ++ [row] ∧
      dictGet row.metadata "agents".toList = some (Value.strList agents) ∧
      dictGet row.metadata "project".toList = some (Value.s s.obs.project_name) ∧
      dictGet row.metadata "agent_count".toList = some (Value.n agents.length) ∧
      dictGet row.metadata "task_count".toList = some (Value.n tasks.length) ∧
      dictGet row.metadata "data_type".toList = some (Value.s "EHR".toList) ∧
      dictGet row.metadata "privacy_level".toList = some (Value.s "HIPAA_COMPLIANT".toList) := by
  refine ⟨_, rfl, ?_, ?_, ?_, ?_, ?_, ?_⟩
  · rw [dictGet_dictSet_other _ _ _ _ (by decide), dictGet_dictSet_other _ _ _ _ (by decide),
      dictGet_dictSet_self]
  · rw [dictGet_dictSet_other _ _ _ _ (by decide), dictGet_dictSet_other _ _ _ _ (by decide),
      dictGet_dictSet_other _ _ _ _ (by decide), dictGet_dictSet_other _ _ _ _ (by decide),
      dictGet_dictSet_other _ _ _ _ (by decide), dictGet_dictSet_self]
  · rw [dictGet_dictSet_other _ _ _ _ (by decide), dictGet_dictSet_other _ _ _ _ (by decide),
      dictGet_dictSet_other _ _ _ _ (by decide), dictGet_dictSet_other _ _ _ _ (by decide),
      dictGet_dictSet_self]
  · rw [dictGet_dictSet_other _ _ _ _ (by decide), dictGet_dictSet_other _ _ _ _ (by decide),
      dictGet_dictSet_other _ _ _ _ (by decide), dictGet_dictSet_self]
  · rw [dictGet_dictSet_other _ _ _ _ (by decide), dictGet_dictSet_self]
  · rw [dictGet_dictSet_self]

/-! ### Claim C3 — lazy conversation creation and reuse -/

/-- Arguments of one `logInteraction` call (besides the crew and agent). -/
structure InteractionCall where
  task : Str
  input_data : Str
  response : Str
  execution_time_ms : ℚ
  token_usage : Option (List (Str × Nat))

/-- A sequence of `logInteraction` calls for one crew and agent. -/
def runInteractions (crew agent : Str) (calls : List InteractionCall) (s : Sys) : Sys :=
  calls.foldl (fun acc c =>
    log_agent_interaction crew agent c.task c.input_data c.response c.execution_time_ms
      c.token_usage acc) s

/-- Shape of a tracked `logInteraction` whose conversation key is already
mapped: the existing conversation id is reused, no conversation row is
created, and the two new messages carry that id. -/
theorem log_interaction_hit (crew agent task inp resp : Str) (t : ℚ)
    (tok : Option (List (Str × Nat))) (s : Sys) (sid cid : Str)
    (hsid : get_session_id s.obs crew = some sid)
    (hkey : dictGet s.obs.conversation_contexts (convKey sid agent task) = some cid) :
    ∃ u a : MessageRow,
      (log_agent_interaction crew agent task inp resp t tok s).obs = s.obs ∧
      (log_agent_interaction crew agent task inp resp t tok s).db.conversations =
        s.db.conversations ∧
      (log_agent_interaction crew agent task inp resp t tok s).db.messages =
        s.db.messages ++ [u, a] ∧
      u.conversation_id = cid ∧ a.conversation_id = cid := by
  simp only [log_agent_interaction, get_or_create_conversation, hsid, hkey]
  exact ⟨_, _, trivial, trivial, rfl, rfl, rfl⟩

/-- Shape of a tracked `logInteraction` whose conversation key is fresh: one
conversation row is created, the key is bound to its id, and the two new
messages carry that id. -/
theorem log_interaction_fresh (crew agent task inp resp : Str) (t : ℚ)
    (tok : Option (List (Str × Nat))) (s : Sys) (sid : Str)
    (hsid : get_session_id s.obs crew = some sid)
    (hkey : dictGet s.obs.conversation_contexts (convKey sid agent task) = none) :
    ∃ (u a : MessageRow) (conv : ConversationRow),
      (log_agent_interaction crew agent task inp resp t tok s).obs.active_sessions =
        s.obs.active_sessions ∧
      (log_agent_interaction crew agent task inp resp t tok s).obs.conversation_contexts =
        dictSet s.obs.conversation_contexts (convKey sid agent task) (mkUuid s.nextId) ∧
      (log_agent_interaction crew agent task inp resp t tok s).db.conversations =
        s.db.conversations ++ [conv] ∧
      (log_agent_interaction crew agent task inp resp t tok s).db.messages =
        s.db.messages ++ [u, a] ∧
      u.conversation_id = mkUuid s.nextId ∧ a.conversation_id = mkUuid s.nextId := by
  simp only [log_agent_interaction, get_or_create_conversation, hsid, hkey]
  exact ⟨_, _, _, trivial, trivial, rfl, rfl, rfl, rfl⟩

/-- Iterating tracked `logInteraction` calls whose tasks all classify to the
bound category appends two messages per call, all carrying the mapped
conversation id, and never creates a conversation row. -/
theorem runInteractions_hit (crew agent cat : Str) (calls : List InteractionCall) (s : Sys)
    (sid cid : Str)
    (hsid : get_session_id s.obs crew = some sid)
    (hcat : ∀ c ∈ calls, classify_task c.task = cat)
    (hkey : dictGet s.obs.conversation_contexts
      (sid ++ "_".toList ++ agent ++ "_".toList ++ cat) = some cid) :
    (runInteractions crew agent calls s).db.conversations = s.db.conversations ∧
    ∃ nm : List MessageRow,
      (runInteractions crew agent calls s).db.messages = s.db.messages ++ nm ∧
      nm.length = 2 * calls.length ∧
      nm.all (fun m => m.conversation_id == cid) = true := by
  induction calls generalizing s with
  | nil => exact ⟨rfl, [], by simp [runInteractions], rfl, rfl⟩
  | cons c rest ih =>
    have hck : convKey sid agent c.task = sid ++ "_".toList ++ agent ++ "_".toList ++ cat := by
      unfold convKey
      rw [hcat c (by simp)]
    obtain ⟨u, a, hobs, hconv, hmsg, hu, ha⟩ :=
      log_interaction_hit crew agent c.task c.input_data c.response c.execution_time_ms
        c.token_usage s sid cid hsid (by rw [hck]; exact hkey)
    have hstep : runInteractions crew agent (c :: rest) s =
        runInteractions crew agent rest
          (log_agent_interaction crew agent c.task c.input_data c.response c.execution_time_ms
            c.token_usage s) := by
      simp [runInteractions]
    set s1 := log_agent_interaction crew agent c.task c.input_data c.response
      c.execution_time_ms c.token_usage s with hs1
    obtain ⟨ihconv, nm, ihmsg, ihlen, ihall⟩ := ih s1
      (by rw [hobs]; exact hsid)
      (fun x hx => hcat x (by simp [hx]))
      (by rw [hobs]; exact hkey)
    refine ⟨?_, [u, a] ++ nm, ?_, ?_, ?_⟩
    · rw [hstep, ihconv, hconv]
    · rw [hstep, ihmsg, hmsg]
      simp
    · simp only [List.length_append, List.length_cons, List.length_nil, ihlen]
      omega
    · simp only [List.all_append, ihall, Bool.and_true]
      simp [hu, ha]

/-- Claim C3: within one observer instance, a conversation row is created
exactly on the first tracked `logInteraction` for a given
(session, agent, task-category) triple — i.e. when the triple's context key is
still unbound — and every subsequent `logInteraction` with the same session,
agent, and a task classifying to the same category reuses that conversation
id: over any non-empty run of such calls the conversation count grows by
exactly one while each call adds exactly two messages, all carrying the same
conversation id. -/
theorem conversation_reuse (crew agent cat : Str) (calls : List InteractionCall) (s : Sys)
    (sid : Str)
    (hsid : get_session_id s.obs crew = some sid)
    (hcat : ∀ c ∈ calls, classify_task c.task = cat)
    (hfresh : dictGet s.obs.conversation_contexts
      (sid ++ "_".toList ++ agent ++ "_".toList ++ cat) = none)
    (hne : calls ≠ []) :
    (runInteractions crew agent calls s).db.conversations.length =
      s.db.conversations.length + 1 ∧
    ∃ (cid : Str) (nm : List MessageRow),
      (runInteractions crew agent calls s).db.messages = s.db.messages ++ nm ∧
      nm.length = 2 * calls.length ∧
      nm.all (fun m => m.conversation_id == cid) = true := by
  obtain ⟨c, rest, rfl⟩ := List.exists_cons_of_ne_nil hne
  have hck : convKey sid agent c.task = sid ++ "_".toList ++ agent ++ "_".toList ++ cat := by
    unfold convKey
    rw [hcat c (by simp)]
  obtain ⟨u, a, conv, hact, hctx, hconv, hmsg, hu, ha⟩ :=
    log_interaction_fresh crew agent c.task c.input_data c.response c.execution_time_ms
      c.token_usage s sid hsid (by rw [hck]; exact hfresh)
  have hstep : runInteractions crew agent (c :: rest) s =
      runInteractions crew agent rest
        (log_agent_interaction crew agent c.task c.input_data c.response c.execution_time_ms
          c.token_usage s) := by
    simp [runInteractions]
  set s1 := log_agent_interaction crew agent c.task c.input_data c.response
    c.execution_time_ms c.token_usage s with hs1
  obtain ⟨ihconv, nm, ihmsg, ihlen, ihall⟩ :=
    runInteractions_hit crew agent cat rest s1 sid (mkUuid s.nextId)
      (by rw [get_session_id_congr s1.obs s.obs crew hact]; exact hsid)
      (fun x hx => hcat x (by simp [hx]))
      (by rw [hctx, hck]; exact dictGet_dictSet_self _ _ _)
  constructor
  · rw [hstep, ihconv, hconv]
    simp
  · refine ⟨mkUuid s.nextId, [u, a] ++ nm, ?_, ?_, ?_⟩
    · rw [hstep, ihmsg, hmsg]
      simp
    · simp only [List.length_append, List.length_cons, List.length_nil, ihlen]
      omega
    · simp only [List.all_append, ihall, Bool.and_true]
      simp [hu, ha]

/-- Witness for claim C3: a started session for crew `"c"`, then two
interactions by agent `"a"` whose tasks both classify to ANALYSIS. -/
theorem conversation_reuse_witness :
    get_session_id
        (start_crew_session 10 "c".toList ["a".toList] [] []
          ⟨CrewAIObserver.fresh "P".toList, DB.empty, 0⟩).2.obs "c".toList =
      some (mkUuid 0) ∧
    (∀ c ∈ [InteractionCall.mk "Analyze extracted data".toList "i1".toList "r1".toList 5 none,
        InteractionCall.mk "Review the findings".toList "i2".toList "r2".toList 6 none],
      classify_task c.task = "ANALYSIS".toList) ∧
    dictGet
        (start_crew_session 10 "c".toList ["a".toList] [] []
          ⟨CrewAIObserver.fresh "P".toList, DB.empty, 0⟩).2.obs.conversation_contexts
        (mkUuid 0 ++ "_".toList ++ "a".toList ++ "_".toList ++ "ANALYSIS".toList) = none ∧
    (runInteractions "c".toList "a".toList
        [InteractionCall.mk "Analyze extracted data".toList "i1".toList "r1".toList 5 none,
         InteractionCall.mk "Review the findings".toList "i2".toList "r2".toList 6 none]
        (start_crew_session 10 "c".toList ["a".toList] [] []
          ⟨CrewAIObserver.fresh "P".toList, DB.empty, 0⟩).2).db.conversations.length =
      (start_crew_session 10 "c".toList ["a".toList] [] []
        ⟨CrewAIObserver.fresh "P".toList, DB.empty, 0⟩).2.db.conversations.length + 1 ∧
    ∃ (cid : Str) (nm : List MessageRow),
      (runInteractions "c".toList "a".toList
          [InteractionCall.mk "Analyze extracted data".toList "i1".toList "r1".toList 5 none,
           InteractionCall.mk "Review the findings".toList "i2".toList "r2".toList 6 none]
          (start_crew_session 10 "c".toList ["a".toList] [] []
            ⟨CrewAIObserver.fresh "P".toList, DB.empty, 0⟩).2).db.messages =
        (start_crew_session 10 "c".toList ["a".toList] [] []
          ⟨CrewAIObserver.fresh "P".toList, DB.empty, 0⟩).2.db.messages ++ nm ∧
      nm.length = 2 * 2 ∧
      nm.all (fun m => m.conversation_id == cid) = true := by
  refine ⟨rfl, by decide, rfl, ?_⟩
  exact conversation_reuse "c".toList "a".toList "ANALYSIS".toList
    [InteractionCall.mk "Analyze extracted data".toList "i1".toList "r1".toList 5 none,
     InteractionCall.mk "Review the findings".toList "i2".toList "r2".toList 6 none]
    (start_crew_session 10 "c".toList ["a".toList] [] []
      ⟨CrewAIObserver.fresh "P".toList, DB.empty, 0⟩).2 (mkUuid 0)
    rfl (by decide) rfl (by simp)

/-! ### Scanner infrastructure for the residual-match arguments

The idempotence claim (C5) and the residual-SSN/e-mail claim (C6) reduce to:
after a pattern's own `re.sub` pass no match of that pattern remains, and the
later passes cannot create one.  Those two facts are proved once, generically,
over a declarative interface to a pattern's matcher (`Pat` below), and then
instantiated for the six patterns. -/

/-- The character preceding the position right after `u`, when scanning began
with preceding character `p`. -/
def ctx (p : Option Char) (u : Str) : Option Char :=
  match u.getLast? with
  | some c => some c
  | none => p

theorem ctx_nil (p : Option Char) : ctx p [] = p := rfl

theorem ctx_of_ne_nil (p : Option Char) (u : Str) (h : u ≠ []) : ctx p u = u.getLast? := by
  unfold ctx
  cases hu : u.getLast? with
  | none => exact absurd (List.getLast?_eq_none_iff.mp hu) h
  | some d => rfl

theorem ctx_cons (p : Option Char) (c : Char) (u : Str) :
    ctx p (c :: u) = ctx (some c) u := by
  cases u with
  | nil => rfl
  | cons d v =>
    rw [ctx_of_ne_nil p (c :: d :: v) (by simp), ctx_of_ne_nil (some c) (d :: v) (by simp),
      List.getLast?_cons_cons]

theorem ctx_cons_getLast (c : Char) (u : Str) :
    ctx (some c) u = (c :: u).getLast? := by
  cases u with
  | nil => rfl
  | cons d v =>
    rw [ctx_of_ne_nil (some c) (d :: v) (by simp), List.getLast?_cons_cons]

/-- No pattern match starts at any position of `s` (scanning context `prev`). -/
def noMatch (tryf : Option Char → Str → Nat) : Option Char → Str → Bool
  | _, [] => true
  | prev, c :: cs => (tryf prev (c :: cs) == 0) && noMatch tryf (some c) cs

theorem noMatch_nil (tryf : Option Char → Str → Nat) (p : Option Char) :
    noMatch tryf p [] = true := rfl

theorem noMatch_cons (tryf : Option Char → Str → Nat) (p : Option Char) (c : Char) (cs : Str) :
    noMatch tryf p (c :: cs) = ((tryf p (c :: cs) == 0) && noMatch tryf (some c) cs) := rfl

/-- Scanner step when the head position does not match. -/
theorem subScanF_cons_zero (tryf : Option Char → Str → Nat) (repl : Str) (fuel : Nat)
    (prev : Option Char) (c : Char) (cs : Str) (h : tryf prev (c :: cs) = 0) :
    subScanF tryf repl (fuel + 1) prev (c :: cs) =
      c :: subScanF tryf repl fuel (some c) cs := by
  simp [subScanF, h]

/-- Scanner step when the head position matches. -/
theorem subScanF_cons_pos (tryf : Option Char → Str → Nat) (repl : Str) (fuel : Nat)
    (prev : Option Char) (c : Char) (cs : Str) (h : ¬ tryf prev (c :: cs) = 0) :
    subScanF tryf repl (fuel + 1) prev (c :: cs) =
      repl ++ subScanF tryf repl fuel ((List.take (tryf prev (c :: cs)) (c :: cs)).getLast?)
        (List.drop (tryf prev (c :: cs)) (c :: cs)) := by
  simp [subScanF, h]

theorem subScanF_nil (tryf : Option Char → Str → Nat) (repl : Str) (fuel : Nat)
    (prev : Option Char) : subScanF tryf repl fuel prev [] = [] := by
  cases fuel <;> rfl

/-- A match-free subject is left unchanged by the scanner. -/
theorem subScanF_of_noMatch (tryf : Option Char → Str → Nat) (repl : Str) :
    ∀ (fuel : Nat) (prev : Option Char) (s : Str), s.length ≤ fuel →
      noMatch tryf prev s = true → subScanF tryf repl fuel prev s = s := by
  intro fuel
  induction fuel with
  | zero =>
    intro prev s hl _
    rw [List.length_eq_zero.mp (Nat.le_zero.mp hl)]
    rfl
  | succ fuel ih =>
    intro prev s hl hnm
    cases s with
    | nil => rfl
    | cons c cs =>
      rw [noMatch_cons] at hnm
      have h0 : tryf prev (c :: cs) = 0 := by
        simpa using ((Bool.and_eq_true _ _).mp hnm).1
      rw [subScanF_cons_zero tryf repl fuel prev c cs h0]
      have h2 : noMatch tryf (some c) cs = true := ((Bool.and_eq_true _ _).mp hnm).2
      rw [ih (some c) cs (by simp at hl; omega) h2]

/-- Fuel does not matter once it covers the subject length. -/
theorem subScanF_fuel (tryf : Option Char → Str → Nat) (repl : Str) :
    ∀ (f1 f2 : Nat) (prev : Option Char) (s : Str), s.length ≤ f1 → s.length ≤ f2 →
      subScanF tryf repl f1 prev s = subScanF tryf repl f2 prev s := by
  intro f1
  induction f1 with
  | zero =>
    intro f2 prev s hl _
    rw [List.length_eq_zero.mp (Nat.le_zero.mp hl)]
    rw [subScanF_nil, subScanF_nil]
  | succ f1 ih =>
    intro f2 prev s hl1 hl2
    cases s with
    | nil => rw [subScanF_nil, subScanF_nil]
    | cons c cs =>
      cases f2 with
      | zero => simp at hl2
      | succ f2 =>
        by_cases hn : tryf prev (c :: cs) = 0
        · rw [subScanF_cons_zero tryf repl f1 prev c cs hn,
            subScanF_cons_zero tryf repl f2 prev c cs hn]
          have hcs1 : cs.length ≤ f1 := by simp at hl1; omega
          have hcs2 : cs.length ≤ f2 := by simp at hl2; omega
          rw [ih f2 (some c) cs hcs1 hcs2]
        · rw [subScanF_cons_pos tryf repl f1 prev c cs hn,
            subScanF_cons_pos tryf repl f2 prev c cs hn]
          have hd1 : ((c :: cs).drop (tryf prev (c :: cs))).length ≤ f1 := by
            rw [List.length_drop]
            simp at hl1 ⊢
            omega
          have hd2 : ((c :: cs).drop (tryf prev (c :: cs))).length ≤ f2 := by
            rw [List.length_drop]
            simp at hl2 ⊢
            omega
          rw [ih f2 _ _ hd1 hd2]

/-- Declarative interface to one pattern's matcher.  `Core prev mp nxt` states
that `mp` is a full match of the pattern when preceded by `prev` and followed
by a text whose head is `nxt`; the fields relate it to the `tryf` matcher and
record the structural facts the residual-match arguments need (every pattern
is `\b`-anchored on both sides, matches are nonempty, and no match contains
the bracket that opens a replacement marker). -/
structure Pat where
  tryf : Option Char → Str → Nat
  Core : Option Char → Str → Option Char → Prop
  sound : ∀ p s, 0 < tryf p s →
    ∃ mp rp, s = mp ++ rp ∧ mp.length = tryf p s ∧ Core p mp rp.head?
  complete : ∀ p mp rp, Core p mp rp.head? → 0 < tryf p (mp ++ rp)
  transfer : ∀ p p' mp c c', wordOpt p = wordOpt p' → wordOpt c = wordOpt c' →
    Core p mp c → Core p' mp c'
  core_pos : ∀ p mp c, Core p mp c → 0 < mp.length
  core_chars : ∀ p mp c, Core p mp c → '[' ∉ mp
  core_start : ∀ p mp c, Core p mp c → ∃ hd tl, mp = hd :: tl ∧ wordOpt p ≠ isWordC hd
  core_end : ∀ p mp c, Core p mp c → ∃ l, mp.getLast? = some l ∧ isWordC l ≠ wordOpt c
  try_prev : ∀ p p' s, wordOpt p = wordOpt p' → tryf p s = tryf p' s
  try_nonword : ∀ p c t, wordOpt p = false → isWordC c = false → tryf p (c :: t) = 0

theorem noMatch_prev (P : Pat) (p p' : Option Char) (s : Str) (h : wordOpt p = wordOpt p') :
    noMatch P.tryf p s = noMatch P.tryf p' s := by
  cases s with
  | nil => rfl
  | cons c cs => rw [noMatch_cons, noMatch_cons, P.try_prev p p' _ h]

theorem noMatch_split (tryf : Option Char → Str → Nat) :
    ∀ (u : Str) (p : Option Char) (v : Str), noMatch tryf p (u ++ v) = true →
      noMatch tryf (ctx p u) v = true := by
  intro u
  induction u with
  | nil => intro p v h; exact h
  | cons c u ih =>
    intro p v h
    rw [List.cons_append, noMatch_cons] at h
    rw [ctx_cons]
    exact ih (some c) v ((Bool.and_eq_true _ _).mp h).2

/-- The scanner's output starts with the subject's first character or with the
replacement marker. -/
theorem subScanF_headOut (tryf : Option Char → Str → Nat) (tok : Str)
    (htok : tok.head? = some '[') (fuel : Nat) (p : Option Char) (s : Str) :
    (subScanF tryf tok fuel p s).head? = s.head? ∨
      (subScanF tryf tok fuel p s).head? = some '[' := by
  cases fuel with
  | zero =>
    cases s with
    | nil => left; rfl
    | cons c cs => left; rfl
  | succ fuel =>
    cases s with
    | nil => left; rfl
    | cons c cs =>
      by_cases hn : tryf p (c :: cs) = 0
      · rw [subScanF_cons_zero tryf tok fuel p c cs hn]
        left
        rfl
      · rw [subScanF_cons_pos tryf tok fuel p c cs hn]
        right
        cases tok with
        | nil => simp at htok
        | cons th tt => simpa using htok

/-- Decomposition of one scanner pass: either the subject is unchanged, or the
output splits at the first replaced match. -/
theorem subScanF_decomp (P : Pat) (tok : Str) :
    ∀ (fuel : Nat) (p : Option Char) (s : Str), s.length ≤ fuel →
      subScanF P.tryf tok fuel p s = s ∨
      ∃ pre mp suf fuel2, s = pre ++ (mp ++ suf) ∧ suf.length ≤ fuel2 ∧
        subScanF P.tryf tok fuel p s =
          pre ++ (tok ++ subScanF P.tryf tok fuel2 mp.getLast? suf) ∧
        P.tryf (ctx p pre) (mp ++ suf) = mp.length ∧ 0 < mp.length := by
  intro fuel
  induction fuel with
  | zero =>
    intro p s hl
    left
    rw [List.length_eq_zero.mp (Nat.le_zero.mp hl)]
    rfl
  | succ fuel ih =>
    intro p s hl
    cases s with
    | nil => left; rfl
    | cons c cs =>
      by_cases hn : P.tryf p (c :: cs) = 0
      · rcases ih (some c) cs (by simp at hl; omega) with heq |
          ⟨pre, mp, suf, fuel2, hsplit, hf2, hout, htry, hpos⟩
        · left
          rw [subScanF_cons_zero P.tryf tok fuel p c cs hn, heq]
        · right
          refine ⟨c :: pre, mp, suf, fuel2, by rw [List.cons_append, ← hsplit], hf2, ?_, ?_, hpos⟩
          · rw [subScanF_cons_zero P.tryf tok fuel p c cs hn, hout, List.cons_append]
          · rw [ctx_cons]
            exact htry
      · right
        have hp : 0 < P.tryf p (c :: cs) := Nat.pos_of_ne_zero hn
        obtain ⟨mp, rp, hsr, hlen, hcore⟩ := P.sound p (c :: cs) hp
        have hmp_pos : 0 < mp.length := P.core_pos _ _ _ hcore
        set n := P.tryf p (c :: cs) with hsetn
        have htake : (c :: cs).take n = mp := by
          rw [hsr]
          exact List.take_left' hlen
        have hdrop : (c :: cs).drop n = rp := by
          rw [hsr]
          exact List.drop_left' hlen
        refine ⟨[], mp, rp, fuel, by simpa using hsr, ?_, ?_, ?_, hmp_pos⟩
        · have h1 : cs.length + 1 = mp.length + rp.length := by
            have := congrArg List.length hsr
            simpa using this
          simp only [List.length_cons] at hl
          omega
        · rw [subScanF_cons_pos P.tryf tok fuel p c cs hn, htake, hdrop]
          simp
        · rw [ctx_nil, ← hsr]
          exact hlen.symm

/-- Auxiliary configuration of `try_head_zero_preserved`: an `I`-match that is
exactly the unchanged prefix, followed by the replacement marker.  Because the
`J`-match that produced the marker began with a `\b`, the original following
character has the same (non-)wordness as the marker's bracket, so the
`I`-match was already present in the original subject. -/
theorem hzp_marker_case (I J : Pat) (tok : Str) (htok : tok.head? = some '[')
    (p : Option Char) (c : Char) (pre mp suf X : Str)
    (hcoreI : I.Core p (c :: pre) ((tok ++ X).head?))
    (htryJ : J.tryf (ctx (some c) pre) (mp ++ suf) = mp.length)
    (hpos : 0 < mp.length) :
    0 < I.tryf p ((c :: pre) ++ (mp ++ suf)) := by
  have hrph : (tok ++ X).head? = some '[' := by
    cases tok with
    | nil => simp at htok
    | cons th tt => simpa using htok
  obtain ⟨l, hlast, hlw⟩ := I.core_end _ _ _ hcoreI
  have hlword : isWordC l = true := by
    rw [hrph] at hlw
    have hb : wordOpt (some '[') = false := by decide
    rw [hb] at hlw
    simpa using hlw
  obtain ⟨mpJ, rpJ, hJsr, hJlen, hJcore⟩ := J.sound _ _ (by rw [htryJ]; exact hpos)
  rw [htryJ] at hJlen
  obtain ⟨hmpJ, hrpJ⟩ := List.append_inj hJsr.symm hJlen
  obtain ⟨hd, tl, hmp_eq, hstart⟩ := J.core_start _ _ _ hJcore
  rw [hmpJ] at hmp_eq
  have hctx : ctx (some c) pre = (c :: pre).getLast? := ctx_cons_getLast c pre
  rw [hctx, hlast] at hstart
  have hhdw : isWordC hd = false := by
    simp only [wordOpt, hlword] at hstart
    cases hhd : isWordC hd with
    | false => rfl
    | true => exact absurd (by rw [hhd]) hstart
  have hheads : (mp ++ suf).head? = some hd := by
    rw [hmp_eq]
    rfl
  have hcore2 : I.Core p (c :: pre) ((mp ++ suf).head?) := by
    refine I.transfer p p _ ((tok ++ X).head?) ((mp ++ suf).head?) rfl ?_ hcoreI
    rw [hrph, hheads]
    show wordOpt (some '[') = wordOpt (some hd)
    simp only [wordOpt]
    rw [hhdw]
    decide
  exact I.complete p (c :: pre) (mp ++ suf) hcore2

/-- Head-position failure of pattern `I` is preserved by a full pass of
pattern `J`'s substitution over the tail: the `\b`-anchoring of both patterns
and the shape of the replacement marker make a new `I`-match at the head
impossible. -/
theorem try_head_zero_preserved (I J : Pat) (tok : Str) (htok : tok.head? = some '[')
    (fuel : Nat) (p : Option Char) (c : Char) (cs : Str) (hfuel : cs.length ≤ fuel)
    (h0 : I.tryf p (c :: cs) = 0) :
    I.tryf p (c :: subScanF J.tryf tok fuel (some c) cs) = 0 := by
  rcases subScanF_decomp J tok fuel (some c) cs hfuel with heq |
    ⟨pre, mp, suf, fuel2, hsplit, hf2, hout, htry, hpos⟩
  · rw [heq]
    exact h0
  · rw [hout]
    by_contra hne
    have hposI : 0 < I.tryf p
        (c :: (pre ++ (tok ++ subScanF J.tryf tok fuel2 mp.getLast? suf))) :=
      Nat.pos_of_ne_zero hne
    obtain ⟨mpI, rpI, hsrI, hlenI, hcoreI⟩ := I.sound _ _ hposI
    rw [← List.cons_append] at hsrI
    rcases List.append_eq_append_iff.mp hsrI with ⟨w, hw1, hw2⟩ | ⟨w, hw1, hw2⟩
    · cases w with
      | nil =>
        simp only [List.append_nil] at hw1
        simp only [List.nil_append] at hw2
        have hc2 : I.Core p (c :: pre)
            ((tok ++ subScanF J.tryf tok fuel2 mp.getLast? suf).head?) := by
          rw [← hw1, hw2]
          exact hcoreI
        have hcmp := hzp_marker_case I J tok htok p c pre mp suf _ hc2 htry hpos
        rw [List.cons_append, ← hsplit] at hcmp
        omega
      | cons y w' =>
        have hy : y = '[' := by
          have hh : (tok ++ subScanF J.tryf tok fuel2 mp.getLast? suf).head? = some '[' := by
            cases tok with
            | nil => simp at htok
            | cons th tt => simpa using htok
          rw [hw2] at hh
          simpa using hh
        have hmem : '[' ∈ mpI := by
          rw [hw1, ← hy]
          simp
        exact absurd hmem (I.core_chars _ _ _ hcoreI)
    · cases w with
      | nil =>
        simp only [List.append_nil] at hw1
        simp only [List.nil_append] at hw2
        have hc2 : I.Core p (c :: pre)
            ((tok ++ subScanF J.tryf tok fuel2 mp.getLast? suf).head?) := by
          rw [hw1, ← hw2]
          exact hcoreI
        have hcmp := hzp_marker_case I J tok htok p c pre mp suf _ hc2 htry hpos
        rw [List.cons_append, ← hsplit] at hcmp
        omega
      | cons y w' =>
        have hrph : rpI.head? = some y := by
          rw [hw2]
          rfl
        have hcore2 : I.Core p mpI (((y :: w') ++ (mp ++ suf)).head?) := by
          have hh : ((y :: w') ++ (mp ++ suf)).head? = some y := rfl
          rw [hh, ← hrph]
          exact hcoreI
        have hcmp := I.complete p mpI ((y :: w') ++ (mp ++ suf)) hcore2
        have heq2 : mpI ++ ((y :: w') ++ (mp ++ suf)) = c :: cs := by
          rw [← List.append_assoc, ← hw1, List.cons_append, ← hsplit]
        rw [heq2] at hcmp
        omega

/-- After pattern `I`'s own substitution pass, no `I`-match remains anywhere
in the output. -/
theorem noMatch_subScan_self (I : Pat) (tok : Str) (htokh : tok.head? = some '[')
    (htokc : ∀ p t, noMatch I.tryf p (tok ++ t) = noMatch I.tryf (some ']') t) :
    ∀ (fuel : Nat) (p : Option Char) (s : Str), s.length ≤ fuel →
      noMatch I.tryf p (subScanF I.tryf tok fuel p s) = true := by
  intro fuel
  induction fuel with
  | zero =>
    intro p s hl
    rw [List.length_eq_zero.mp (Nat.le_zero.mp hl)]
    rfl
  | succ fuel ih =>
    intro p s hl
    cases s with
    | nil => rfl
    | cons c cs =>
      by_cases hn : I.tryf p (c :: cs) = 0
      · rw [subScanF_cons_zero I.tryf tok fuel p c cs hn, noMatch_cons]
        have hcs : cs.length ≤ fuel := by simp at hl; omega
        rw [try_head_zero_preserved I I tok htokh fuel p c cs hcs hn]
        simpa using ih (some c) cs hcs
      · rw [subScanF_cons_pos I.tryf tok fuel p c cs hn, htokc p _]
        have hp : 0 < I.tryf p (c :: cs) := Nat.pos_of_ne_zero hn
        obtain ⟨mp, rp, hsr, hlen, hcore⟩ := I.sound p (c :: cs) hp
        set n := I.tryf p (c :: cs) with hsetn
        have htake : (c :: cs).take n = mp := by
          rw [hsr]
          exact List.take_left' hlen
        have hdrop : (c :: cs).drop n = rp := by
          rw [hsr]
          exact List.drop_left' hlen
        rw [htake, hdrop]
        obtain ⟨l, hlast, hlw⟩ := I.core_end _ _ _ hcore
        have hrp_len : rp.length ≤ fuel := by
          have h1 : cs.length + 1 = mp.length + rp.length := by
            have := congrArg List.length hsr
            simpa using this
          have h2 : 0 < mp.length := I.core_pos _ _ _ hcore
          simp only [List.length_cons] at hl
          omega
        have hih := ih (mp.getLast?) rp hrp_len
        cases hwl : isWordC l with
        | true =>
          cases hout : subScanF I.tryf tok fuel mp.getLast? rp with
          | nil => rfl
          | cons d ds =>
            rw [noMatch_cons]
            have hdw : isWordC d = false := by
              rcases subScanF_headOut I.tryf tok htokh fuel mp.getLast? rp with hh | hh
                <;> rw [hout] at hh
              · rw [hwl] at hlw
                cases rp with
                | nil => simp at hh
                | cons r0 rtl =>
                  have hdr : d = r0 := by simpa using hh
                  rw [hdr]
                  simp only [List.head?_cons, wordOpt] at hlw
                  cases hr : isWordC r0 with
                  | false => rfl
                  | true => rw [hr] at hlw; exact absurd rfl hlw
              · have : d = '[' := by simpa using hh
                rw [this]
                decide
            rw [I.try_nonword (some ']') d ds (by decide) hdw]
            rw [hout, noMatch_cons] at hih
            simpa using ((Bool.and_eq_true _ _).mp hih).2
        | false =>
          rw [noMatch_prev I (some ']') mp.getLast? _ ?_]
          · exact hih
          · rw [hlast]
            simp only [wordOpt, hwl]
            decide

/-- A subject free of `I`-matches stays free of `I`-matches through a full
pass of pattern `J`'s substitution. -/
theorem noMatch_subScan_other (I J : Pat) (tok : Str) (htokh : tok.head? = some '[')
    (htokc : ∀ p t, noMatch I.tryf p (tok ++ t) = noMatch I.tryf (some ']') t) :
    ∀ (fuel : Nat) (p : Option Char) (s : Str), s.length ≤ fuel →
      noMatch I.tryf p s = true →
      noMatch I.tryf p (subScanF J.tryf tok fuel p s) = true := by
  intro fuel
  induction fuel with
  | zero =>
    intro p s hl _
    rw [List.length_eq_zero.mp (Nat.le_zero.mp hl)]
    rfl
  | succ fuel ih =>
    intro p s hl hnm
    cases s with
    | nil => rfl
    | cons c cs =>
      rw [noMatch_cons] at hnm
      have h0 : I.tryf p (c :: cs) = 0 := by
        simpa using ((Bool.and_eq_true _ _).mp hnm).1
      have hnm2 : noMatch I.tryf (some c) cs = true := ((Bool.and_eq_true _ _).mp hnm).2
      by_cases hn : J.tryf p (c :: cs) = 0
      · rw [subScanF_cons_zero J.tryf tok fuel p c cs hn, noMatch_cons]
        have hcs : cs.length ≤ fuel := by simp at hl; omega
        rw [try_head_zero_preserved I J tok htokh fuel p c cs hcs h0]
        simpa using ih (some c) cs hcs hnm2
      · rw [subScanF_cons_pos J.tryf tok fuel p c cs hn, htokc p _]
        have hp : 0 < J.tryf p (c :: cs) := Nat.pos_of_ne_zero hn
        obtain ⟨mp, rp, hsr, hlen, hcore⟩ := J.sound p (c :: cs) hp
        set n := J.tryf p (c :: cs) with hsetn
        have htake : (c :: cs).take n = mp := by
          rw [hsr]
          exact List.take_left' hlen
        have hdrop : (c :: cs).drop n = rp := by
          rw [hsr]
          exact List.drop_left' hlen
        rw [htake, hdrop]
        obtain ⟨l, hlast, hlw⟩ := J.core_end _ _ _ hcore
        have hmp_pos : 0 < mp.length := J.core_pos _ _ _ hcore
        have hrp_len : rp.length ≤ fuel := by
          have h1 : cs.length + 1 = mp.length + rp.length := by
            have := congrArg List.length hsr
            simpa using this
          simp only [List.length_cons] at hl
          omega
        have hmp_ne : mp ≠ [] := by
          cases mp with
          | nil => simp at hmp_pos
          | cons m0 mtl => simp
        have hsplitI : noMatch I.tryf mp.getLast? rp = true := by
          have := noMatch_split I.tryf mp p rp (by rw [← hsr]; exact hnm)
          rwa [ctx_of_ne_nil p mp hmp_ne] at this
        have hih := ih (mp.getLast?) rp hrp_len hsplitI
        cases hwl : isWordC l with
        | true =>
          cases hout : subScanF J.tryf tok fuel mp.getLast? rp with
          | nil => rfl
          | cons d ds =>
            rw [noMatch_cons]
            have hdw : isWordC d = false := by
              rcases subScanF_headOut J.tryf tok htokh fuel mp.getLast? rp with hh | hh
                <;> rw [hout] at hh
              · rw [hwl] at hlw
                cases rp with
                | nil => simp at hh
                | cons r0 rtl =>
                  have hdr : d = r0 := by simpa using hh
                  rw [hdr]
                  simp only [List.head?_cons, wordOpt] at hlw
                  cases hr : isWordC r0 with
                  | false => rfl
                  | true => rw [hr] at hlw; exact absurd rfl hlw
              · have : d = '[' := by simpa using hh
                rw [this]
                decide
            rw [I.try_nonword (some ']') d ds (by decide) hdw]
            rw [hout, noMatch_cons] at hih
            simpa using ((Bool.and_eq_true _ _).mp hih).2
        | false =>
          rw [noMatch_prev I (some ']') mp.getLast? _ ?_]
          · exact hih
          · rw [hlast]
            simp only [wordOpt, hwl]
            decide

/-! ### Character-class facts -/

theorem digit_isWord (c : Char) (h : isDigitC c = true) : isWordC c = true := by
  simp [isWordC, isAlnumC, h]

theorem lower_isWord (c : Char) (h : isLowerC c = true) : isWordC c = true := by
  simp [isWordC, isAlnumC, isAlphaC, h]

theorem upper_isWord (c : Char) (h : isUpperC c = true) : isWordC c = true := by
  simp [isWordC, isAlnumC, isAlphaC, h]

theorem not_word_not_digit (c : Char) (h : isWordC c = false) : isDigitC c = false := by
  cases hd : isDigitC c with
  | false => rfl
  | true => rw [digit_isWord c hd] at h; cases h

theorem not_word_not_lower (c : Char) (h : isWordC c = false) : isLowerC c = false := by
  cases hd : isLowerC c with
  | false => rfl
  | true => rw [lower_isWord c hd] at h; cases h

theorem not_word_not_upper (c : Char) (h : isWordC c = false) : isUpperC c = false := by
  cases hd : isUpperC c with
  | false => rfl
  | true => rw [upper_isWord c hd] at h; cases h

theorem digit_ne_bracket (c : Char) (h : isDigitC c = true) : c ≠ '[' := by
  intro he
  subst he
  exact absurd h (by decide)

theorem lower_ne_bracket (c : Char) (h : isLowerC c = true) : c ≠ '[' := by
  intro he
  subst he
  exact absurd h (by decide)

theorem upper_ne_bracket (c : Char) (h : isUpperC c = true) : c ≠ '[' := by
  intro he
  subst he
  exact absurd h (by decide)

theorem space_not_word (c : Char) (h : isSpaceC c = true) : isWordC c = false := by
  simp only [isSpaceC, Bool.or_eq_true, beq_iff_eq] at h
  rw [Bool.eq_false_iff]
  intro hw
  simp only [isWordC, isAlnumC, isAlphaC, isUpperC, isLowerC, isDigitC, Bool.or_eq_true,
    Bool.and_eq_true, decide_eq_true_eq, beq_iff_eq] at hw
  omega

theorem space_ne_bracket (c : Char) (h : isSpaceC c = true) : c ≠ '[' := by
  intro he
  subst he
  exact absurd h (by decide)

theorem space_not_lower (c : Char) (h : isSpaceC c = true) : isLowerC c = false :=
  not_word_not_lower c (space_not_word c h)

theorem upper_not_space (c : Char) (h : isUpperC c = true) : isSpaceC c = false := by
  simp only [isUpperC, Bool.and_eq_true, decide_eq_true_eq] at h
  rw [Bool.eq_false_iff]
  intro hs
  simp only [isSpaceC, Bool.or_eq_true, beq_iff_eq] at hs
  omega

/-! ### The SSN pattern instance -/

/-- Declarative match of `\b\d{3}-\d{2}-\d{4}\b`. -/
def ssnCore (p : Option Char) (mp : Str) (nxt : Option Char) : Prop :=
  ∃ c0 c1 c2 c4 c5 c7 c8 c9 c10 : Char,
    mp = [c0, c1, c2, '-', c4, c5, '-', c7, c8, c9, c10] ∧
    isDigitC c0 = true ∧ isDigitC c1 = true ∧ isDigitC c2 = true ∧
    isDigitC c4 = true ∧ isDigitC c5 = true ∧ isDigitC c7 = true ∧
    isDigitC c8 = true ∧ isDigitC c9 = true ∧ isDigitC c10 = true ∧
    wordOpt p = false ∧ wordOpt nxt = false

theorem try_ssn_sound (p : Option Char) (s : Str) (h : 0 < try_ssn p s) :
    ∃ mp rp, s = mp ++ rp ∧ mp.length = try_ssn p s ∧ ssnCore p mp rp.head? := by
  set k := try_ssn p s with hk
  unfold try_ssn at hk
  split at hk
  case h_2 => rw [hk] at h; simp at h
  case h_1 c0 c1 c2 c3 c4 c5 c6 c7 c8 c9 c10 rest =>
    split at hk
    case isFalse => rw [hk] at h; simp at h
    case isTrue hcond =>
      simp only [Bool.and_eq_true, Bool.not_eq_true', beq_iff_eq, and_assoc] at hcond
      obtain ⟨hp, h0, h1, h2, h3, h4, h5, h6, h7, h8, h9, h10, hr⟩ := hcond
      subst h3
      subst h6
      refine ⟨[c0, c1, c2, '-', c4, c5, '-', c7, c8, c9, c10], rest, rfl, by rw [hk]; rfl, ?_⟩
      exact ⟨c0, c1, c2, c4, c5, c7, c8, c9, c10, rfl, h0, h1, h2, h4, h5, h7, h8, h9, h10,
        hp, hr⟩

theorem try_ssn_complete (p : Option Char) (mp rp : Str) (h : ssnCore p mp rp.head?) :
    0 < try_ssn p (mp ++ rp) := by
  obtain ⟨c0, c1, c2, c4, c5, c7, c8, c9, c10, hmp, h0, h1, h2, h4, h5, h7, h8, h9, h10,
    hp, hr⟩ := h
  subst hmp
  show 0 < try_ssn p (c0 :: c1 :: c2 :: '-' :: c4 :: c5 :: '-' :: c7 :: c8 :: c9 :: c10 :: rp)
  unfold try_ssn
  simp [h0, h1, h2, h4, h5, h7, h8, h9, h10, hp, hr]

/-- The `Pat` interface of the SSN pattern. -/
def ssnPat : Pat where
  tryf := try_ssn
  Core := ssnCore
  sound := try_ssn_sound
  complete := try_ssn_complete
  transfer := by
    intro p p' mp c c' hp hc h
    obtain ⟨c0, c1, c2, c4, c5, c7, c8, c9, c10, hmp, h0, h1, h2, h4, h5, h7, h8, h9, h10,
      hwp, hwn⟩ := h
    exact ⟨c0, c1, c2, c4, c5, c7, c8, c9, c10, hmp, h0, h1, h2, h4, h5, h7, h8, h9, h10,
      by rw [← hp]; exact hwp, by rw [← hc]; exact hwn⟩
  core_pos := by
    intro p mp c h
    obtain ⟨c0, c1, c2, c4, c5, c7, c8, c9, c10, hmp, -⟩ := h
    subst hmp
    simp
  core_chars := by
    intro p mp c h
    obtain ⟨c0, c1, c2, c4, c5, c7, c8, c9, c10, hmp, h0, h1, h2, h4, h5, h7, h8, h9, h10, -⟩ := h
    subst hmp
    intro hmem
    simp only [List.mem_cons, List.not_mem_nil, or_false] at hmem
    rcases hmem with he | he | he | he | he | he | he | he | he | he | he <;>
      first
      | exact absurd he (by decide)
      | exact absurd h0 (by rw [← he]; decide)
      | exact absurd h1 (by rw [← he]; decide)
      | exact absurd h2 (by rw [← he]; decide)
      | exact absurd h4 (by rw [← he]; decide)
      | exact absurd h5 (by rw [← he]; decide)
      | exact absurd h7 (by rw [← he]; decide)
      | exact absurd h8 (by rw [← he]; decide)
      | exact absurd h9 (by rw [← he]; decide)
      | exact absurd h10 (by rw [← he]; decide)
  core_start := by
    intro p mp c h
    obtain ⟨c0, c1, c2, c4, c5, c7, c8, c9, c10, hmp, h0, -, -, -, -, -, -, -, -, hwp, -⟩ := h
    subst hmp
    refine ⟨c0, _, rfl, ?_⟩
    rw [hwp, digit_isWord c0 h0]
    decide
  core_end := by
    intro p mp c h
    obtain ⟨c0, c1, c2, c4, c5, c7, c8, c9, c10, hmp, -, -, -, -, -, -, -, -, h10, -, hwn⟩ := h
    subst hmp
    refine ⟨c10, by rfl, ?_⟩
    rw [hwn, digit_isWord c10 h10]
    decide
  try_prev := by
    intro p p' s h
    unfold try_ssn
    simp only [h]
  try_nonword := by
    intro p c t hp hc
    unfold try_ssn
    split
    case h_2 => rfl
    case h_1 =>
      rename_i c0 c1 c2 c3 c4 c5 c6 c7 c8 c9 c10 rest heq
      injection heq with h1 h2
      rw [← h1]
      simp [not_word_not_digit c hc]

/-! ### The phone pattern instance -/

/-- Declarative match of `\b\d{3}-\d{3}-\d{4}\b`. -/
def phoneCore (p : Option Char) (mp : Str) (nxt : Option Char) : Prop :=
  ∃ c0 c1 c2 c4 c5 c6 c8 c9 c10 c11 : Char,
    mp = [c0, c1, c2, '-', c4, c5, c6, '-', c8, c9, c10, c11] ∧
    isDigitC c0 = true ∧ isDigitC c1 = true ∧ isDigitC c2 = true ∧
    isDigitC c4 = true ∧ isDigitC c5 = true ∧ isDigitC c6 = true ∧
    isDigitC c8 = true ∧ isDigitC c9 = true ∧ isDigitC c10 = true ∧ isDigitC c11 = true ∧
    wordOpt p = false ∧ wordOpt nxt = false

theorem try_phone_sound (p : Option Char) (s : Str) (h : 0 < try_phone p s) :
    ∃ mp rp, s = mp ++ rp ∧ mp.length = try_phone p s ∧ phoneCore p mp rp.head? := by
  set k := try_phone p s with hk
  unfold try_phone at hk
  split at hk
  case h_2 => rw [hk] at h; simp at h
  case h_1 c0 c1 c2 c3 c4 c5 c6 c7 c8 c9 c10 c11 rest =>
    split at hk
    case isFalse => rw [hk] at h; simp at h
    case isTrue hcond =>
      simp only [Bool.and_eq_true, Bool.not_eq_true', beq_iff_eq, and_assoc] at hcond
      obtain ⟨hp, h0, h1, h2, h3, h4, h5, h6, h7, h8, h9, h10, h11, hr⟩ := hcond
      subst h3
      subst h7
      refine ⟨[c0, c1, c2, '-', c4, c5, c6, '-', c8, c9, c10, c11], rest, rfl,
        by rw [hk]; rfl, ?_⟩
      exact ⟨c0, c1, c2, c4, c5, c6, c8, c9, c10, c11, rfl, h0, h1, h2, h4, h5, h6, h8, h9,
        h10, h11, hp, hr⟩

theorem try_phone_complete (p : Option Char) (mp rp : Str) (h : phoneCore p mp rp.head?) :
    0 < try_phone p (mp ++ rp) := by
  obtain ⟨c0, c1, c2, c4, c5, c6, c8, c9, c10, c11, hmp, h0, h1, h2, h4, h5, h6, h8, h9,
    h10, h11, hp, hr⟩ := h
  subst hmp
  show 0 < try_phone p
    (c0 :: c1 :: c2 :: '-' :: c4 :: c5 :: c6 :: '-' :: c8 :: c9 :: c10 :: c11 :: rp)
  unfold try_phone
  simp [h0, h1, h2, h4, h5, h6, h8, h9, h10, h11, hp, hr]

/-- The `Pat` interface of the phone pattern. -/
def phonePat : Pat where
  tryf := try_phone
  Core := phoneCore
  sound := try_phone_sound
  complete := try_phone_complete
  transfer := by
    intro p p' mp c c' hp hc h
    obtain ⟨c0, c1, c2, c4, c5, c6, c8, c9, c10, c11, hmp, h0, h1, h2, h4, h5, h6, h8, h9,
      h10, h11, hwp, hwn⟩ := h
    exact ⟨c0, c1, c2, c4, c5, c6, c8, c9, c10, c11, hmp, h0, h1, h2, h4, h5, h6, h8, h9,
      h10, h11, by rw [← hp]; exact hwp, by rw [← hc]; exact hwn⟩
  core_pos := by
    intro p mp c h
    obtain ⟨c0, c1, c2, c4, c5, c6, c8, c9, c10, c11, hmp, -⟩ := h
    subst hmp
    simp
  core_chars := by
    intro p mp c h
    obtain ⟨c0, c1, c2, c4, c5, c6, c8, c9, c10, c11, hmp, h0, h1, h2, h4, h5, h6, h8, h9,
      h10, h11, -⟩ := h
    subst hmp
    intro hmem
    simp only [List.mem_cons, List.not_mem_nil, or_false] at hmem
    rcases hmem with he | he | he | he | he | he | he | he | he | he | he | he <;>
      first
      | exact absurd he (by decide)
      | exact absurd h0 (by rw [← he]; decide)
      | exact absurd h1 (by rw [← he]; decide)
      | exact absurd h2 (by rw [← he]; decide)
      | exact absurd h4 (by rw [← he]; decide)
      | exact absurd h5 (by rw [← he]; decide)
      | exact absurd h6 (by rw [← he]; decide)
      | exact absurd h8 (by rw [← he]; decide)
      | exact absurd h9 (by rw [← he]; decide)
      | exact absurd h10 (by rw [← he]; decide)
      | exact absurd h11 (by rw [← he]; decide)
  core_start := by
    intro p mp c h
    obtain ⟨c0, c1, c2, c4, c5, c6, c8, c9, c10, c11, hmp, h0, -, -, -, -, -, -, -, -, -,
      hwp, -⟩ := h
    subst hmp
    refine ⟨c0, _, rfl, ?_⟩
    rw [hwp, digit_isWord c0 h0]
    decide
  core_end := by
    intro p mp c h
    obtain ⟨c0, c1, c2, c4, c5, c6, c8, c9, c10, c11, hmp, -, -, -, -, -, -, -, -, -, h11,
      -, hwn⟩ := h
    subst hmp
    refine ⟨c11, by rfl, ?_⟩
    rw [hwn, digit_isWord c11 h11]
    decide
  try_prev := by
    intro p p' s h
    unfold try_phone
    simp only [h]
  try_nonword := by
    intro p c t hp hc
    unfold try_phone
    split
    case h_2 => rfl
    case h_1 =>
      rename_i c0 c1 c2 c3 c4 c5 c6 c7 c8 c9 c10 c11 rest heq
      injection heq with h1 h2
      rw [← h1]
      simp [not_word_not_digit c hc]

/-! ### The medical-record-number pattern instance -/

/-- Declarative match of `\b\d{10,12}\b`. -/
def mrnCore (p : Option Char) (mp : Str) (nxt : Option Char) : Prop :=
  (∀ c ∈ mp, isDigitC c = true) ∧ 10 ≤ mp.length ∧ mp.length ≤ 12 ∧
  wordOpt p = false ∧ wordOpt nxt = false

theorem try_mrn_sound (p : Option Char) (s : Str) (h : 0 < try_mrn p s) :
    ∃ mp rp, s = mp ++ rp ∧ mp.length = try_mrn p s ∧ mrnCore p mp rp.head? := by
  set k := try_mrn p s with hk
  simp only [try_mrn] at hk
  split at hk
  case isFalse => rw [hk] at h; simp at h
  case isTrue hcond =>
    simp only [Bool.and_eq_true, Bool.not_eq_true', decide_eq_true_eq, and_assoc] at hcond
    obtain ⟨hp, h10, h12, hr⟩ := hcond
    refine ⟨s.takeWhile isDigitC, s.dropWhile isDigitC,
      (List.takeWhile_append_dropWhile _ _).symm, by rw [hk], ?_⟩
    exact ⟨fun c hc => List.mem_takeWhile_imp hc, h10, h12, hp, hr⟩

theorem try_mrn_complete (p : Option Char) (mp rp : Str) (h : mrnCore p mp rp.head?) :
    0 < try_mrn p (mp ++ rp) := by
  obtain ⟨hdig, h10, h12, hp, hr⟩ := h
  have htw : (mp ++ rp).takeWhile isDigitC = mp := by
    rw [List.takeWhile_append_of_pos hdig]
    cases rp with
    | nil => simp
    | cons r0 rtl =>
      rw [List.takeWhile_cons_of_neg, List.append_nil]
      rw [not_word_not_digit r0 (by simpa [wordOpt] using hr)]
      simp
  have hdw : (mp ++ rp).dropWhile isDigitC = rp := by
    rw [List.dropWhile_append_of_pos hdig]
    cases rp with
    | nil => simp
    | cons r0 rtl =>
      rw [List.dropWhile_cons_of_neg]
      rw [not_word_not_digit r0 (by simpa [wordOpt] using hr)]
      simp
  simp only [try_mrn, htw, hdw]
  have hne : ¬ (mp ++ rp).takeWhile isDigitC = [] := by
    rw [htw]
    intro he
    rw [he] at h10
    simp at h10
  simp [hp, h10, h12, hr]
  omega

/-- The `Pat` interface of the MRN pattern. -/
def mrnPat : Pat where
  tryf := try_mrn
  Core := mrnCore
  sound := try_mrn_sound
  complete := try_mrn_complete
  transfer := by
    intro p p' mp c c' hp hc h
    obtain ⟨hdig, h10, h12, hwp, hwn⟩ := h
    exact ⟨hdig, h10, h12, by rw [← hp]; exact hwp, by rw [← hc]; exact hwn⟩
  core_pos := by
    intro p mp c h
    obtain ⟨-, h10, -⟩ := h
    omega
  core_chars := by
    intro p mp c h
    obtain ⟨hdig, -⟩ := h
    intro hmem
    exact digit_ne_bracket '[' (hdig '[' hmem) rfl
  core_start := by
    intro p mp c h
    obtain ⟨hdig, h10, -, hwp, -⟩ := h
    cases mp with
    | nil => simp at h10
    | cons hd tl =>
      refine ⟨hd, tl, rfl, ?_⟩
      rw [hwp, digit_isWord hd (hdig hd (by simp))]
      decide
  core_end := by
    intro p mp c h
    obtain ⟨hdig, h10, -, -, hwn⟩ := h
    have hne : mp ≠ [] := by
      intro he
      rw [he] at h10
      simp at h10
    refine ⟨mp.getLast hne, List.getLast?_eq_getLast mp hne, ?_⟩
    rw [hwn, digit_isWord _ (hdig _ (List.getLast_mem hne))]
    decide
  try_prev := by
    intro p p' s h
    simp only [try_mrn, h]
  try_nonword := by
    intro p c t hp hc
    simp only [try_mrn]
    rw [List.takeWhile_cons_of_neg]
    · simp
    · rw [not_word_not_digit c hc]
      simp

/-! ### The date pattern instance -/

/-- Declarative match of `\b\d{1,2}/\d{1,2}/\d{4}\b`. -/
def dateCore (p : Option Char) (mp : Str) (nxt : Option Char) : Prop :=
  ∃ a b cd : Str,
    mp = a ++ '/' :: (b ++ '/' :: cd) ∧
    (∀ c ∈ a, isDigitC c = true) ∧ (∀ c ∈ b, isDigitC c = true) ∧
    (∀ c ∈ cd, isDigitC c = true) ∧
    1 ≤ a.length ∧ a.length ≤ 2 ∧ 1 ≤ b.length ∧ b.length ≤ 2 ∧ cd.length = 4 ∧
    wordOpt p = false ∧ wordOpt nxt = false

theorem try_date_sound (p : Option Char) (s : Str) (h : 0 < try_date p s) :
    ∃ mp rp, s = mp ++ rp ∧ mp.length = try_date p s ∧ dateCore p mp rp.head? := by
  set k := try_date p s with hk
  simp only [try_date] at hk
  split at hk
  case isTrue => rw [hk] at h; simp at h
  case isFalse hw =>
    split at hk
    case h_2 => rw [hk] at h; simp at h
    case h_1 u hequ =>
      split at hk
      case h_2 => rw [hk] at h; simp at h
      case h_1 v heqv =>
        split at hk
        case isFalse => rw [hk] at h; simp at h
        case isTrue hcond =>
          simp only [Bool.and_eq_true, Bool.not_eq_true', decide_eq_true_eq,
            and_assoc] at hcond
          obtain ⟨ha1, ha2, hb1, hb2, hcd4, hnw⟩ := hcond
          have hvlen : 4 ≤ v.length := by
            have h1 := congrArg List.length (List.takeWhile_append_dropWhile isDigitC v)
            simp only [List.length_append] at h1
            omega
          have htake : v.take 4 = (v.takeWhile isDigitC).take 4 := by
            conv_lhs => rw [← List.takeWhile_append_dropWhile isDigitC v]
            rw [List.take_append_of_le_length hcd4]
          have hdc : ∀ c ∈ v.take 4, isDigitC c = true := by
            intro x hx
            rw [htake] at hx
            exact List.mem_takeWhile_imp (List.take_subset _ _ hx)
          refine ⟨s.takeWhile isDigitC ++ '/' :: (u.takeWhile isDigitC ++ '/' :: v.take 4),
            v.drop 4, ?_, ?_, ?_⟩
          · calc s = s.takeWhile isDigitC ++ s.dropWhile isDigitC :=
                  (List.takeWhile_append_dropWhile _ _).symm
              _ = s.takeWhile isDigitC ++ '/' :: u := by rw [hequ]
              _ = s.takeWhile isDigitC ++
                  '/' :: (u.takeWhile isDigitC ++ u.dropWhile isDigitC) := by
                  rw [List.takeWhile_append_dropWhile]
              _ = s.takeWhile isDigitC ++ '/' :: (u.takeWhile isDigitC ++ '/' :: v) := by
                  rw [heqv]
              _ = s.takeWhile isDigitC ++
                  '/' :: (u.takeWhile isDigitC ++ '/' :: (v.take 4 ++ v.drop 4)) := by
                  rw [List.take_append_drop]
              _ = (s.takeWhile isDigitC ++
                  '/' :: (u.takeWhile isDigitC ++ '/' :: v.take 4)) ++ v.drop 4 := by
                  simp [List.append_assoc]
          · rw [hk]
            simp only [List.length_append, List.length_cons, List.length_take]
            omega
          · refine ⟨s.takeWhile isDigitC, u.takeWhile isDigitC, v.take 4, rfl,
              fun c hc => List.mem_takeWhile_imp hc,
              fun c hc => List.mem_takeWhile_imp hc,
              hdc, ha1, ha2, hb1, hb2, ?_, ?_, hnw⟩
            · simp only [List.length_take]
              omega
            · cases hwp : wordOpt p
              · rfl
              · exact absurd hwp hw

theorem try_date_complete (p : Option Char) (mp rp : Str) (h : dateCore p mp rp.head?) :
    0 < try_date p (mp ++ rp) := by
  obtain ⟨a, b, cd, hmp, hda, hdb, hdc, ha1, ha2, hb1, hb2, hcd, hp, hr⟩ := h
  subst hmp
  have hs : (a ++ '/' :: (b ++ '/' :: cd)) ++ rp =
      a ++ '/' :: (b ++ '/' :: (cd ++ rp)) := by
    simp [List.append_assoc]
  rw [hs]
  have h1t : (a ++ '/' :: (b ++ '/' :: (cd ++ rp))).takeWhile isDigitC = a := by
    rw [List.takeWhile_append_of_pos hda, List.takeWhile_cons_of_neg (by decide)]
    simp
  have h1d : (a ++ '/' :: (b ++ '/' :: (cd ++ rp))).dropWhile isDigitC =
      '/' :: (b ++ '/' :: (cd ++ rp)) := by
    rw [List.dropWhile_append_of_pos hda, List.dropWhile_cons_of_neg (by decide)]
  have h2t : (b ++ '/' :: (cd ++ rp)).takeWhile isDigitC = b := by
    rw [List.takeWhile_append_of_pos hdb, List.takeWhile_cons_of_neg (by decide)]
    simp
  have h2d : (b ++ '/' :: (cd ++ rp)).dropWhile isDigitC = '/' :: (cd ++ rp) := by
    rw [List.dropWhile_append_of_pos hdb, List.dropWhile_cons_of_neg (by decide)]
  have h3d : (cd ++ rp).drop 4 = rp := List.drop_left' hcd
  have hc4 : 4 ≤ ((cd ++ rp).takeWhile isDigitC).length := by
    rw [List.takeWhile_append_of_pos hdc]
    simp only [List.length_append]
    omega
  simp only [try_date, h1t, h1d, h2t, h2d, h3d]
  simp [hp, ha1, ha2, hb1, hb2, hc4, hr]

/-- The `Pat` interface of the date pattern. -/
def datePat : Pat where
  tryf := try_date
  Core := dateCore
  sound := try_date_sound
  complete := try_date_complete
  transfer := by
    intro p p' mp c c' hp hc h
    obtain ⟨a, b, cd, hmp, hda, hdb, hdc, ha1, ha2, hb1, hb2, hcd, hwp, hwn⟩ := h
    exact ⟨a, b, cd, hmp, hda, hdb, hdc, ha1, ha2, hb1, hb2, hcd,
      by rw [← hp]; exact hwp, by rw [← hc]; exact hwn⟩
  core_pos := by
    intro p mp c h
    obtain ⟨a, b, cd, hmp, -⟩ := h
    subst hmp
    simp only [List.length_append, List.length_cons]
    omega
  core_chars := by
    intro p mp c h
    obtain ⟨a, b, cd, hmp, hda, hdb, hdc, -⟩ := h
    subst hmp
    intro hmem
    simp only [List.mem_append, List.mem_cons] at hmem
    rcases hmem with h1 | h1 | h1 | h1 | h1
    · exact digit_ne_bracket '[' (hda '[' h1) rfl
    · exact absurd h1 (by decide)
    · exact digit_ne_bracket '[' (hdb '[' h1) rfl
    · exact absurd h1 (by decide)
    · exact digit_ne_bracket '[' (hdc '[' h1) rfl
  core_start := by
    intro p mp c h
    obtain ⟨a, b, cd, hmp, hda, -, -, ha1, -, -, -, -, hwp, -⟩ := h
    subst hmp
    cases a with
    | nil => simp at ha1
    | cons a0 atl =>
      refine ⟨a0, atl ++ '/' :: (b ++ '/' :: cd), rfl, ?_⟩
      rw [hwp, digit_isWord a0 (hda a0 (by simp))]
      decide
  core_end := by
    intro p mp c h
    obtain ⟨a, b, cd, hmp, -, -, hdc, -, -, -, -, hcd, -, hwn⟩ := h
    subst hmp
    have hne : cd ≠ [] := by
      intro he
      rw [he] at hcd
      simp at hcd
    have hmp2 : a ++ '/' :: (b ++ '/' :: cd) = (a ++ '/' :: (b ++ ['/'])) ++ cd := by
      simp [List.append_assoc]
    rw [hmp2]
    refine ⟨cd.getLast hne, ?_, ?_⟩
    · rw [List.getLast?_append, List.getLast?_eq_getLast cd hne]
      rfl
    · rw [hwn, digit_isWord _ (hdc _ (List.getLast_mem hne))]
      decide
  try_prev := by
    intro p p' s h
    simp only [try_date, h]
  try_nonword := by
    intro p c t hp hc
    have h1 : (c :: t).takeWhile isDigitC = [] := by
      rw [List.takeWhile_cons_of_neg]
      rw [not_word_not_digit c hc]
      simp
    have h2 : (c :: t).dropWhile isDigitC = c :: t := by
      rw [List.dropWhile_cons_of_neg]
      rw [not_word_not_digit c hc]
      simp
    simp only [try_date, h1, h2]
    split
    · rfl
    · split
      · split
        · simp
        · rfl
      · rfl

/-! ### The patient-name pattern instance -/

/-- Declarative match of `\b[A-Z][a-z]+\s+[A-Z][a-z]+\b`. -/
def nameCore (p : Option Char) (mp : Str) (nxt : Option Char) : Prop :=
  ∃ (c0 : Char) (l1 sp : Str) (d0 : Char) (l2 : Str),
    mp = c0 :: (l1 ++ (sp ++ d0 :: l2)) ∧
    isUpperC c0 = true ∧ (∀ c ∈ l1, isLowerC c = true) ∧ l1 ≠ [] ∧
    (∀ c ∈ sp, isSpaceC c = true) ∧ sp ≠ [] ∧
    isUpperC d0 = true ∧ (∀ c ∈ l2, isLowerC c = true) ∧ l2 ≠ [] ∧
    wordOpt p = false ∧ wordOpt nxt = false

theorem try_name_sound (p : Option Char) (s : Str) (h : 0 < try_name p s) :
    ∃ mp rp, s = mp ++ rp ∧ mp.length = try_name p s ∧ nameCore p mp rp.head? := by
  set k := try_name p s with hk
  simp only [try_name] at hk
  split at hk
  case isTrue => rw [hk] at h; simp at h
  case isFalse hw =>
    split at hk
    case h_2 => rw [hk] at h; simp at h
    case h_1 c t =>
      split at hk
      case isFalse => rw [hk] at h; simp at h
      case isTrue hc =>
        split at hk
        case isTrue => rw [hk] at h; simp at h
        case isFalse hl1 =>
          split at hk
          case isTrue => rw [hk] at h; simp at h
          case isFalse hsp0 =>
            split at hk
            case h_2 => rw [hk] at h; simp at h
            case h_1 d u hequ =>
              split at hk
              case isFalse => rw [hk] at h; simp at h
              case isTrue hd =>
                split at hk
                case isTrue => rw [hk] at h; simp at h
                case isFalse hl2 =>
                  split at hk
                  case isTrue => rw [hk] at h; simp at h
                  case isFalse hnw =>
                    have hne1 : t.takeWhile isLowerC ≠ [] := by
                      intro he
                      exact hl1 (by rw [he]; rfl)
                    have hnesp : (t.dropWhile isLowerC).takeWhile isSpaceC ≠ [] := by
                      intro he
                      exact hsp0 (by rw [he]; rfl)
                    have hne2 : u.takeWhile isLowerC ≠ [] := by
                      intro he
                      exact hl2 (by rw [he]; rfl)
                    refine ⟨c :: (t.takeWhile isLowerC ++
                        ((t.dropWhile isLowerC).takeWhile isSpaceC ++
                          d :: u.takeWhile isLowerC)),
                      u.dropWhile isLowerC, ?_, ?_, ?_⟩
                    · calc c :: t
                          = c :: (t.takeWhile isLowerC ++ t.dropWhile isLowerC) := by
                            rw [List.takeWhile_append_dropWhile]
                        _ = c :: (t.takeWhile isLowerC ++
                            ((t.dropWhile isLowerC).takeWhile isSpaceC ++
                              (t.dropWhile isLowerC).dropWhile isSpaceC)) := by
                            rw [List.takeWhile_append_dropWhile isSpaceC
                              (t.dropWhile isLowerC)]
                        _ = c :: (t.takeWhile isLowerC ++
                            ((t.dropWhile isLowerC).takeWhile isSpaceC ++ d :: u)) := by
                            rw [hequ]
                        _ = c :: (t.takeWhile isLowerC ++
                            ((t.dropWhile isLowerC).takeWhile isSpaceC ++
                              d :: (u.takeWhile isLowerC ++ u.dropWhile isLowerC))) := by
                            rw [List.takeWhile_append_dropWhile isLowerC u]
                        _ = (c :: (t.takeWhile isLowerC ++
                            ((t.dropWhile isLowerC).takeWhile isSpaceC ++
                              d :: u.takeWhile isLowerC))) ++ u.dropWhile isLowerC := by
                            simp [List.append_assoc]
                    · rw [hk]
                      simp only [List.length_cons, List.length_append]
                      omega
                    · refine ⟨c, t.takeWhile isLowerC,
                        (t.dropWhile isLowerC).takeWhile isSpaceC, d,
                        u.takeWhile isLowerC, rfl, hc,
                        fun x hx => List.mem_takeWhile_imp hx, hne1,
                        fun x hx => List.mem_takeWhile_imp hx, hnesp, hd,
                        fun x hx => List.mem_takeWhile_imp hx, hne2, ?_, ?_⟩
                      · cases hwp : wordOpt p
                        · rfl
                        · exact absurd hwp hw
                      · cases hwn : wordOpt ((u.dropWhile isLowerC).head?)
                        · rfl
                        · exact absurd hwn hnw

theorem try_name_complete (p : Option Char) (mp rp : Str) (h : nameCore p mp rp.head?) :
    0 < try_name p (mp ++ rp) := by
  obtain ⟨c0, l1, sp, d0, l2, hmp, hc0, hll1, hne1, hsp, hnesp, hd0, hll2, hne2, hp, hr⟩ := h
  subst hmp
  obtain ⟨s0, stl, rfl⟩ := List.exists_cons_of_ne_nil hnesp
  obtain ⟨a0, atl, rfl⟩ := List.exists_cons_of_ne_nil hne1
  obtain ⟨b0, btl, rfl⟩ := List.exists_cons_of_ne_nil hne2
  have hs : (c0 :: ((a0 :: atl) ++ ((s0 :: stl) ++ d0 :: (b0 :: btl)))) ++ rp =
      c0 :: ((a0 :: atl) ++ ((s0 :: stl) ++ d0 :: ((b0 :: btl) ++ rp))) := by
    simp [List.append_assoc]
  rw [hs]
  have hin_t : ((s0 :: stl) ++ d0 :: ((b0 :: btl) ++ rp)).takeWhile isLowerC = [] := by
    rw [List.cons_append, List.takeWhile_cons_of_neg]
    rw [space_not_lower s0 (hsp s0 (by simp))]
    simp
  have hin_d : ((s0 :: stl) ++ d0 :: ((b0 :: btl) ++ rp)).dropWhile isLowerC =
      (s0 :: stl) ++ d0 :: ((b0 :: btl) ++ rp) := by
    rw [List.cons_append, List.dropWhile_cons_of_neg]
    rw [space_not_lower s0 (hsp s0 (by simp))]
    simp
  have h1t : ((a0 :: atl) ++ ((s0 :: stl) ++ d0 :: ((b0 :: btl) ++ rp))).takeWhile
      isLowerC = a0 :: atl := by
    rw [List.takeWhile_append_of_pos hll1, hin_t]
    simp
  have h1d : ((a0 :: atl) ++ ((s0 :: stl) ++ d0 :: ((b0 :: btl) ++ rp))).dropWhile
      isLowerC = (s0 :: stl) ++ d0 :: ((b0 :: btl) ++ rp) := by
    rw [List.dropWhile_append_of_pos hll1, hin_d]
  have h2t : ((s0 :: stl) ++ d0 :: ((b0 :: btl) ++ rp)).takeWhile isSpaceC =
      s0 :: stl := by
    rw [List.takeWhile_append_of_pos hsp, List.takeWhile_cons_of_neg]
    · simp
    · rw [upper_not_space d0 hd0]
      simp
  have h2d : ((s0 :: stl) ++ d0 :: ((b0 :: btl) ++ rp)).dropWhile isSpaceC =
      d0 :: ((b0 :: btl) ++ rp) := by
    rw [List.dropWhile_append_of_pos hsp, List.dropWhile_cons_of_neg]
    rw [upper_not_space d0 hd0]
    simp
  have h3t : ((b0 :: btl) ++ rp).takeWhile isLowerC = b0 :: btl := by
    rw [List.takeWhile_append_of_pos hll2]
    cases rp with
    | nil => simp
    | cons r0 rtl =>
      rw [List.takeWhile_cons_of_neg, List.append_nil]
      rw [not_word_not_lower r0 (by simpa [wordOpt] using hr)]
      simp
  have h3d : ((b0 :: btl) ++ rp).dropWhile isLowerC = rp := by
    rw [List.dropWhile_append_of_pos hll2]
    cases rp with
    | nil => simp
    | cons r0 rtl =>
      rw [List.dropWhile_cons_of_neg]
      rw [not_word_not_lower r0 (by simpa [wordOpt] using hr)]
      simp
  simp only [try_name, h1t, h1d, h2t, h2d, h3t, h3d, hp, hc0, hd0, hr]
  simp

/-- The `Pat` interface of the patient-name pattern. -/
def namePat : Pat where
  tryf := try_name
  Core := nameCore
  sound := try_name_sound
  complete := try_name_complete
  transfer := by
    intro p p' mp c c' hp hc h
    obtain ⟨c0, l1, sp, d0, l2, hmp, hc0, hll1, hne1, hsp, hnesp, hd0, hll2, hne2,
      hwp, hwn⟩ := h
    exact ⟨c0, l1, sp, d0, l2, hmp, hc0, hll1, hne1, hsp, hnesp, hd0, hll2, hne2,
      by rw [← hp]; exact hwp, by rw [← hc]; exact hwn⟩
  core_pos := by
    intro p mp c h
    obtain ⟨c0, l1, sp, d0, l2, hmp, -⟩ := h
    subst hmp
    simp
  core_chars := by
    intro p mp c h
    obtain ⟨c0, l1, sp, d0, l2, hmp, hc0, hll1, -, hsp, -, hd0, hll2, -⟩ := h
    subst hmp
    intro hmem
    simp only [List.mem_cons, List.mem_append] at hmem
    rcases hmem with h1 | h1 | h1 | h1 | h1
    · exact upper_ne_bracket c0 hc0 h1.symm
    · exact lower_ne_bracket '[' (hll1 '[' h1) rfl
    · exact space_ne_bracket '[' (hsp '[' h1) rfl
    · exact upper_ne_bracket d0 hd0 h1.symm
    · exact lower_ne_bracket '[' (hll2 '[' h1) rfl
  core_start := by
    intro p mp c h
    obtain ⟨c0, l1, sp, d0, l2, hmp, hc0, -, -, -, -, -, -, -, hwp, -⟩ := h
    subst hmp
    refine ⟨c0, _, rfl, ?_⟩
    rw [hwp, upper_isWord c0 hc0]
    decide
  core_end := by
    intro p mp c h
    obtain ⟨c0, l1, sp, d0, l2, hmp, -, -, -, -, -, -, hll2, hne2, -, hwn⟩ := h
    subst hmp
    have hmp2 : c0 :: (l1 ++ (sp ++ d0 :: l2)) =
        (c0 :: (l1 ++ (sp ++ [d0]))) ++ l2 := by
      simp [List.append_assoc]
    rw [hmp2]
    refine ⟨l2.getLast hne2, ?_, ?_⟩
    · rw [List.getLast?_append, List.getLast?_eq_getLast l2 hne2]
      rfl
    · rw [hwn, lower_isWord _ (hll2 _ (List.getLast_mem hne2))]
      decide
  try_prev := by
    intro p p' s h
    simp only [try_name, h]
  try_nonword := by
    intro p c t hp hc
    simp [try_name, hp, not_word_not_upper c hc]

/-! ### The e-mail pattern instance -/

/-- Declarative match of `\b[A-Za-z0-9._%+-]+@[A-Za-z0-9.-]+\.[A-Z|a-z]{2,}\b`. -/
def emailCore (p : Option Char) (mp : Str) (nxt : Option Char) : Prop :=
  ∃ (loc dom tld : Str),
    mp = loc ++ '@' :: (dom ++ '.' :: tld) ∧
    (∀ c ∈ loc, localC c = true) ∧
    (∀ c ∈ dom, domC c = true) ∧ 1 ≤ dom.length ∧
    (∀ c ∈ tld, tldC c = true) ∧ 2 ≤ tld.length ∧
    (∃ lh ltl, loc = lh :: ltl ∧ wordOpt p ≠ isWordC lh) ∧
    (∃ tl0, tld.getLast? = some tl0 ∧ isWordC tl0 ≠ wordOpt nxt)

theorem takeWhile_length_le (p : Char → Bool) (l : Str) :
    (l.takeWhile p).length ≤ l.length := by
  have h1 := congrArg List.length (List.takeWhile_append_dropWhile p l)
  simp only [List.length_append] at h1
  omega

theorem tldSearch_spec (u : Str) :
    ∀ m d, tldSearch u m = d → 0 < d →
      2 ≤ d ∧ d ≤ m ∧
      (isWordC (u.getD (d - 1) ' ') != wordOpt ((u.drop d).head?)) = true := by
  intro m
  induction m with
  | zero =>
    intro d hd hpos
    simp only [tldSearch] at hd
    omega
  | succ n ih =>
    intro d hd hpos
    simp only [tldSearch] at hd
    split at hd
    case isTrue hcond =>
      simp only [Bool.and_eq_true, decide_eq_true_eq] at hcond
      obtain ⟨h2, hbnd⟩ := hcond
      subst hd
      refine ⟨by omega, by omega, ?_⟩
      simpa using hbnd
    case isFalse =>
      obtain ⟨ha, hb, hc⟩ := ih d hd hpos
      exact ⟨ha, by omega, hc⟩

theorem tldSearch_pos_of_witness (u : Str) :
    ∀ m k0, 2 ≤ k0 → k0 ≤ m →
      (isWordC (u.getD (k0 - 1) ' ') != wordOpt ((u.drop k0).head?)) = true →
      0 < tldSearch u m := by
  intro m
  induction m with
  | zero => intro k0 h2 hm hb; omega
  | succ n ih =>
    intro k0 h2 hm hb
    simp only [tldSearch]
    split
    case isTrue => omega
    case isFalse hcond =>
      rcases Nat.lt_or_ge k0 (n + 1) with hlt | hge
      · exact ih k0 h2 (by omega) hb
      · exfalso
        apply hcond
        have hke : k0 = n + 1 := by omega
        simp only [Bool.and_eq_true, decide_eq_true_eq]
        refine ⟨by omega, ?_⟩
        rw [hke] at hb
        simpa using hb

theorem domSearch_spec (t : Str) :
    ∀ n d, domSearch t n = d → 0 < d →
      ∃ j kk, d = j + 1 + kk ∧ j + 1 ≤ n ∧ 1 ≤ j ∧ t.getD j ' ' = '.' ∧ 0 < kk ∧
        tldSearch (t.drop (j + 1)) (((t.drop (j + 1)).takeWhile tldC).length) = kk := by
  intro n
  induction n with
  | zero =>
    intro d hd hpos
    simp only [domSearch] at hd
    omega
  | succ m ih =>
    intro d hd hpos
    simp only [domSearch] at hd
    split at hd
    case isTrue hcond =>
      split at hd
      case isTrue hz =>
        obtain ⟨j, kk, h1, h2, h3⟩ := ih d hd hpos
        exact ⟨j, kk, h1, by omega, h3⟩
      case isFalse hz =>
        simp only [Bool.and_eq_true, beq_iff_eq, decide_eq_true_eq] at hcond
        refine ⟨m, tldSearch (t.drop (m + 1)) (((t.drop (m + 1)).takeWhile tldC).length),
          hd.symm, le_refl _, hcond.2, hcond.1, ?_, rfl⟩
        have hz2 : tldSearch (t.drop (m + 1))
            (((t.drop (m + 1)).takeWhile tldC).length) ≠ 0 := by
          intro he
          exact hz (by rw [he]; rfl)
        omega
    case isFalse =>
      obtain ⟨j, kk, h1, h2, h3⟩ := ih d hd hpos
      exact ⟨j, kk, h1, by omega, h3⟩

theorem domSearch_pos_of_witness (t : Str) :
    ∀ n j0, j0 + 1 ≤ n → 1 ≤ j0 → t.getD j0 ' ' = '.' →
      0 < tldSearch (t.drop (j0 + 1)) (((t.drop (j0 + 1)).takeWhile tldC).length) →
      0 < domSearch t n := by
  intro n
  induction n with
  | zero => intro j0 h1 h2 h3 h4; omega
  | succ m ih =>
    intro j0 h1 h2 h3 h4
    simp only [domSearch]
    split
    case isTrue hcond =>
      split
      case isTrue hz =>
        rcases Nat.lt_or_ge (j0 + 1) (m + 1) with hlt | hge
        · exact ih j0 (by omega) h2 h3 h4
        · exfalso
          have hj : j0 = m := by omega
          rw [hj] at h4
          simp only [beq_iff_eq] at hz
          omega
      case isFalse hz => omega
    case isFalse hcond =>
      rcases Nat.lt_or_ge (j0 + 1) (m + 1) with hlt | hge
      · exact ih j0 (by omega) h2 h3 h4
      · exfalso
        apply hcond
        have hj : j0 = m := by omega
        simp only [Bool.and_eq_true, beq_iff_eq, decide_eq_true_eq]
        rw [← hj]
        exact ⟨h3, h2⟩

theorem try_email_sound (p : Option Char) (s : Str) (h : 0 < try_email p s) :
    ∃ mp rp, s = mp ++ rp ∧ mp.length = try_email p s ∧ emailCore p mp rp.head? := by
  set k := try_email p s with hk
  simp only [try_email] at hk
  split at hk
  case h_1 => rw [hk] at h; simp at h
  case h_2 lh hlh =>
    split at hk
    case isTrue => rw [hk] at h; simp at h
    case isFalse hbeq =>
      split at hk
      case h_2 => rw [hk] at h; simp at h
      case h_1 t hteq =>
        split at hk
        case isTrue => rw [hk] at h; simp at h
        case isFalse hdkz =>
          have hd0 : 0 < domSearch t ((t.takeWhile domC).length) :=
            Nat.pos_of_ne_zero (fun he => hdkz (by rw [he]; rfl))
          obtain ⟨j, kk, hdsum, hjr, hj1, hdot, hkpos, hkeq⟩ :=
            domSearch_spec t ((t.takeWhile domC).length) _ rfl hd0
          obtain ⟨hk2, hkm, hbnd⟩ :=
            tldSearch_spec (t.drop (j + 1))
              (((t.drop (j + 1)).takeWhile tldC).length) kk hkeq hkpos
          have hrt : (t.takeWhile domC).length ≤ t.length := takeWhile_length_le _ _
          have hjt : j < t.length := by omega
          have hmu : ((t.drop (j + 1)).takeWhile tldC).length ≤
              (t.drop (j + 1)).length := takeWhile_length_le _ _
          have hku : kk ≤ (t.drop (j + 1)).length := by omega
          have hgetj : t[j] = '.' := by
            have hx := hdot
            rw [List.getD_eq_getElem?_getD, List.getElem?_eq_getElem hjt] at hx
            simpa using hx
          have hsplit_t : t = t.take j ++ '.' :: t.drop (j + 1) := by
            conv_lhs => rw [← List.take_append_drop j t]
            rw [List.drop_eq_getElem_cons hjt, hgetj]
          have hjle : j ≤ (t.takeWhile domC).length := by omega
          have hdom_digits : ∀ c ∈ t.take j, domC c = true := by
            intro x hx
            have htk : t.take j = (t.takeWhile domC).take j := by
              conv_lhs => rw [← List.takeWhile_append_dropWhile domC t]
              rw [List.take_append_of_le_length hjle]
            rw [htk] at hx
            exact List.mem_takeWhile_imp (List.take_subset _ _ hx)
          have htld_digits : ∀ c ∈ (t.drop (j + 1)).take kk, tldC c = true := by
            intro x hx
            have htk : (t.drop (j + 1)).take kk =
                ((t.drop (j + 1)).takeWhile tldC).take kk := by
              conv_lhs => rw [← List.takeWhile_append_dropWhile tldC (t.drop (j + 1))]
              rw [List.take_append_of_le_length hkm]
            rw [htk] at hx
            exact List.mem_takeWhile_imp (List.take_subset _ _ hx)
          have hlocd : ∀ c ∈ s.takeWhile localC, localC c = true :=
            fun c hc => List.mem_takeWhile_imp hc
          obtain ⟨lh0, ltl, hloce⟩ : ∃ lh0 ltl, s.takeWhile localC = lh0 :: ltl := by
            cases hcl : s.takeWhile localC with
            | nil => rw [hcl] at hlh; cases hlh
            | cons x xs => exact ⟨x, xs, rfl⟩
          have hlh2 : lh0 = lh := by
            rw [hloce] at hlh
            simpa using hlh
          subst hlh2
          have hstart : wordOpt p ≠ isWordC lh0 := by
            intro he
            exact hbeq (by rw [he]; simp)
          have htldlen : ((t.drop (j + 1)).take kk).length = kk := by
            simp only [List.length_take]
            omega
          have hkk1 : kk - 1 < (t.drop (j + 1)).length := by omega
          have hgl : ((t.drop (j + 1)).take kk).getLast? =
              some ((t.drop (j + 1)).getD (kk - 1) ' ') := by
            rw [List.getLast?_eq_getElem?, htldlen, List.getElem?_take_of_lt (by omega),
              List.getD_eq_getElem?_getD, List.getElem?_eq_getElem hkk1]
            simp
          have hend : isWordC ((t.drop (j + 1)).getD (kk - 1) ' ') ≠
              wordOpt (((t.drop (j + 1)).drop kk).head?) := by
            simpa using hbnd
          refine ⟨s.takeWhile localC ++ '@' ::
              (t.take j ++ '.' :: (t.drop (j + 1)).take kk),
            (t.drop (j + 1)).drop kk, ?_, ?_, ?_⟩
          · calc s = s.takeWhile localC ++ s.dropWhile localC :=
                  (List.takeWhile_append_dropWhile _ _).symm
              _ = s.takeWhile localC ++ '@' :: t := by rw [hteq]
              _ = s.takeWhile localC ++ '@' :: (t.take j ++ '.' :: t.drop (j + 1)) := by
                  rw [← hsplit_t]
              _ = s.takeWhile localC ++ '@' :: (t.take j ++ '.' ::
                    ((t.drop (j + 1)).take kk ++ (t.drop (j + 1)).drop kk)) := by
                  rw [List.take_append_drop]
              _ = (s.takeWhile localC ++ '@' :: (t.take j ++ '.' ::
                    (t.drop (j + 1)).take kk)) ++ (t.drop (j + 1)).drop kk := by
                  simp [List.append_assoc]
          · rw [hk, hdsum]
            simp only [List.length_append, List.length_cons, List.length_take]
            omega
          · refine ⟨s.takeWhile localC, t.take j, (t.drop (j + 1)).take kk, rfl,
              hlocd, hdom_digits, ?_, htld_digits, ?_, ⟨lh0, ltl, hloce, hstart⟩,
              ⟨(t.drop (j + 1)).getD (kk - 1) ' ', hgl, hend⟩⟩
            · simp only [List.length_take]
              omega
            · simp only [List.length_take]
              omega

theorem try_email_complete (p : Option Char) (mp rp : Str) (h : emailCore p mp rp.head?) :
    0 < try_email p (mp ++ rp) := by
  obtain ⟨loc, dom, tld, hmp, hlocd, hdomd, hdom1, htldd, htld2, hst, hen⟩ := h
  obtain ⟨lh, ltl, hloce, hstart⟩ := hst
  obtain ⟨tl0, hgl, hend⟩ := hen
  subst hmp
  subst hloce
  have hs : ((lh :: ltl) ++ '@' :: (dom ++ '.' :: tld)) ++ rp =
      (lh :: ltl) ++ '@' :: (dom ++ '.' :: (tld ++ rp)) := by
    simp [List.append_assoc]
  rw [hs]
  have h1t : ((lh :: ltl) ++ '@' :: (dom ++ '.' :: (tld ++ rp))).takeWhile localC =
      lh :: ltl := by
    rw [List.takeWhile_append_of_pos hlocd, List.takeWhile_cons_of_neg (by decide)]
    simp
  have h1d : ((lh :: ltl) ++ '@' :: (dom ++ '.' :: (tld ++ rp))).dropWhile localC =
      '@' :: (dom ++ '.' :: (tld ++ rp)) := by
    rw [List.dropWhile_append_of_pos hlocd, List.dropWhile_cons_of_neg (by decide)]
  have hdot : (dom ++ '.' :: (tld ++ rp)).getD dom.length ' ' = '.' := by
    rw [List.getD_eq_getElem?_getD, List.getElem?_append_right (le_refl _)]
    simp
  have hr1 : dom.length + 1 ≤ ((dom ++ '.' :: (tld ++ rp)).takeWhile domC).length := by
    rw [List.takeWhile_append_of_pos hdomd, List.takeWhile_cons_of_pos (by decide)]
    simp only [List.length_append, List.length_cons]
    omega
  have hu : (dom ++ '.' :: (tld ++ rp)).drop (dom.length + 1) = tld ++ rp := by
    have hsp : dom ++ '.' :: (tld ++ rp) = (dom ++ ['.']) ++ (tld ++ rp) := by
      simp [List.append_assoc]
    rw [hsp]
    exact List.drop_left' (by simp)
  have hktw : tld.length ≤ ((tld ++ rp).takeWhile tldC).length := by
    rw [List.takeWhile_append_of_pos htldd]
    simp only [List.length_append]
    omega
  have hgd : (tld ++ rp).getD (tld.length - 1) ' ' = tl0 := by
    have hlt : tld.length - 1 < tld.length := by omega
    rw [List.getD_eq_getElem?_getD, List.getElem?_append_left hlt,
      ← List.getLast?_eq_getElem?]
    rw [hgl]
    rfl
  have hdrop : (tld ++ rp).drop tld.length = rp := List.drop_left' rfl
  have hbnd : (isWordC ((tld ++ rp).getD (tld.length - 1) ' ') !=
      wordOpt (((tld ++ rp).drop tld.length).head?)) = true := by
    rw [hgd, hdrop]
    exact bne_iff_ne.mpr hend
  have htld_pos : 0 < tldSearch (tld ++ rp) (((tld ++ rp).takeWhile tldC).length) :=
    tldSearch_pos_of_witness (tld ++ rp) _ tld.length htld2 hktw hbnd
  have hds : 0 < domSearch (dom ++ '.' :: (tld ++ rp))
      (((dom ++ '.' :: (tld ++ rp)).takeWhile domC).length) := by
    apply domSearch_pos_of_witness _ _ dom.length hr1 hdom1 hdot
    rw [hu]
    exact htld_pos
  have hbeqf : (wordOpt p == isWordC lh) = false := beq_eq_false_iff_ne.mpr hstart
  have hdkf : (domSearch (dom ++ '.' :: (tld ++ rp))
      (((dom ++ '.' :: (tld ++ rp)).takeWhile domC).length) == 0) = false :=
    beq_eq_false_iff_ne.mpr (Nat.pos_iff_ne_zero.mp hds)
  simp only [try_email, h1t, h1d, List.head?_cons, hbeqf, hdkf]
  simp

/-- The `Pat` interface of the e-mail pattern. -/
def emailPat : Pat where
  tryf := try_email
  Core := emailCore
  sound := try_email_sound
  complete := try_email_complete
  transfer := by
    intro p p' mp c c' hp hc h
    obtain ⟨loc, dom, tld, hmp, hlocd, hdomd, hdom1, htldd, htld2, hst, hen⟩ := h
    obtain ⟨lh, ltl, hloce, hstart⟩ := hst
    obtain ⟨tl0, hgl, hend⟩ := hen
    exact ⟨loc, dom, tld, hmp, hlocd, hdomd, hdom1, htldd, htld2,
      ⟨lh, ltl, hloce, by rw [← hp]; exact hstart⟩,
      ⟨tl0, hgl, by rw [← hc]; exact hend⟩⟩
  core_pos := by
    intro p mp c h
    obtain ⟨loc, dom, tld, hmp, -⟩ := h
    subst hmp
    simp
  core_chars := by
    intro p mp c h
    obtain ⟨loc, dom, tld, hmp, hlocd, hdomd, -, htldd, -⟩ := h
    subst hmp
    intro hmem
    simp only [List.mem_append, List.mem_cons] at hmem
    rcases hmem with h1 | h1 | h1 | h1 | h1
    · exact absurd (hlocd '[' h1) (by decide)
    · exact absurd h1 (by decide)
    · exact absurd (hdomd '[' h1) (by decide)
    · exact absurd h1 (by decide)
    · exact absurd (htldd '[' h1) (by decide)
  core_start := by
    intro p mp c h
    obtain ⟨loc, dom, tld, hmp, -, -, -, -, -, hst, -⟩ := h
    obtain ⟨lh, ltl, hloce, hstart⟩ := hst
    subst hmp
    subst hloce
    exact ⟨lh, ltl ++ '@' :: (dom ++ '.' :: tld), rfl, hstart⟩
  core_end := by
    intro p mp c h
    obtain ⟨loc, dom, tld, hmp, -, -, -, -, htld2, -, hen⟩ := h
    obtain ⟨tl0, hgl, hend⟩ := hen
    subst hmp
    have hmp2 : loc ++ '@' :: (dom ++ '.' :: tld) =
        (loc ++ '@' :: (dom ++ ['.'])) ++ tld := by
      simp [List.append_assoc]
    rw [hmp2]
    refine ⟨tl0, ?_, hend⟩
    rw [List.getLast?_append, hgl]
    rfl
  try_prev := by
    intro p p' s h
    simp only [try_email, h]
  try_nonword := by
    intro p c t hp hc
    cases hlc : localC c with
    | false =>
      have h1 : (c :: t).takeWhile localC = [] := by
        rw [List.takeWhile_cons_of_neg]
        rw [hlc]
        simp
      simp [try_email, h1]
    | true =>
      have h1 : (c :: t).takeWhile localC = c :: t.takeWhile localC := by
        rw [List.takeWhile_cons_of_pos]
        exact hlc
      simp [try_email, h1, hp, hc]

/-! ### Head-failure lemmas: every replacement-token character kills a match -/

theorem try_ssn_zero (p : Option Char) (c : Char) (t : Str) (h : isDigitC c = false) :
    try_ssn p (c :: t) = 0 := by
  unfold try_ssn
  split
  case h_2 => rfl
  case h_1 =>
    rename_i c0 c1 c2 c3 c4 c5 c6 c7 c8 c9 c10 rest heq
    injection heq with h1 h2
    rw [← h1]
    simp [h]

theorem try_phone_zero (p : Option Char) (c : Char) (t : Str) (h : isDigitC c = false) :
    try_phone p (c :: t) = 0 := by
  unfold try_phone
  split
  case h_2 => rfl
  case h_1 =>
    rename_i c0 c1 c2 c3 c4 c5 c6 c7 c8 c9 c10 c11 rest heq
    injection heq with h1 h2
    rw [← h1]
    simp [h]

theorem try_mrn_zero (p : Option Char) (c : Char) (t : Str) (h : isDigitC c = false) :
    try_mrn p (c :: t) = 0 := by
  simp only [try_mrn]
  rw [List.takeWhile_cons_of_neg]
  · simp
  · rw [h]
    simp

theorem try_date_zero (p : Option Char) (c : Char) (t : Str) (h : isDigitC c = false) :
    try_date p (c :: t) = 0 := by
  have h1 : (c :: t).takeWhile isDigitC = [] := by
    rw [List.takeWhile_cons_of_neg]
    rw [h]
    simp
  have h2 : (c :: t).dropWhile isDigitC = c :: t := by
    rw [List.dropWhile_cons_of_neg]
    rw [h]
    simp
  simp only [try_date, h1, h2]
  split
  · rfl
  · split
    · split
      · simp
      · rfl
    · rfl

theorem try_name_zero1 (p : Option Char) (c : Char) (t : Str) (h : isUpperC c = false) :
    try_name p (c :: t) = 0 := by
  simp [try_name, h]

theorem try_name_zero2 (p : Option Char) (c d : Char) (t : Str) (h : isLowerC d = false) :
    try_name p (c :: d :: t) = 0 := by
  have h1 : (d :: t).takeWhile isLowerC = [] := by
    rw [List.takeWhile_cons_of_neg]
    rw [h]
    simp
  simp [try_name, h1]

/-! ### Token-glue lemmas: scanning across a replacement marker -/

/-- For a digit-led pattern, a digit-free token ending in a bracket is
transparent to match scanning. -/
theorem noMatch_glue_of_zero (tryf : Option Char → Str → Nat)
    (hz : ∀ (p : Option Char) (c : Char) (t : Str), isDigitC c = false →
      tryf p (c :: t) = 0) :
    ∀ (tok : Str), tok.getLast? = some ']' → (∀ c ∈ tok, isDigitC c = false) →
      ∀ (p : Option Char) (t : Str),
        noMatch tryf p (tok ++ t) = noMatch tryf (some ']') t := by
  intro tok
  induction tok with
  | nil =>
    intro hlast
    simp at hlast
  | cons c tok ih =>
    intro hlast hnd p t
    rw [List.cons_append, noMatch_cons, hz p c _ (hnd c (by simp))]
    simp only [beq_self_eq_true, Bool.true_and]
    cases tok with
    | nil =>
      have hc : c = ']' := by simpa using hlast
      subst hc
      simp
    | cons c2 tok2 =>
      rw [List.getLast?_cons_cons] at hlast
      exact ih hlast (fun y hy => hnd y (by simp [hy])) (some c) t

/-- A token is safe for the name pattern when no uppercase character in it is
immediately followed by a lowercase one. -/
def nameSafeB : Str → Bool
  | [] => true
  | [c] => !isUpperC c
  | c :: d :: rest => (!isUpperC c || !isLowerC d) && nameSafeB (d :: rest)

theorem noMatch_glue_name : ∀ (tok : Str), tok.getLast? = some ']' →
    nameSafeB tok = true →
    ∀ (p : Option Char) (t : Str),
      noMatch try_name p (tok ++ t) = noMatch try_name (some ']') t := by
  intro tok
  induction tok with
  | nil =>
    intro hlast
    simp at hlast
  | cons c tok ih =>
    intro hlast hsafe p t
    cases tok with
    | nil =>
      have hc : c = ']' := by simpa using hlast
      subst hc
      rw [List.cons_append, noMatch_cons, try_name_zero1 p ']' _ (by decide)]
      simp
    | cons d rest =>
      rw [List.getLast?_cons_cons] at hlast
      have hsafe2 : nameSafeB (d :: rest) = true := by
        simp only [nameSafeB, Bool.and_eq_true] at hsafe
        exact hsafe.2
      have hcd : (!isUpperC c || !isLowerC d) = true := by
        simp only [nameSafeB, Bool.and_eq_true] at hsafe
        exact hsafe.1
      have hzc : try_name p (c :: ((d :: rest) ++ t)) = 0 := by
        rcases (Bool.or_eq_true _ _).mp hcd with hcase | hcase
        · exact try_name_zero1 p c _ (by simpa using hcase)
        · rw [List.cons_append]
          exact try_name_zero2 p c d _ (by simpa using hcase)
      rw [List.cons_append, noMatch_cons, hzc]
      simp only [beq_self_eq_true, Bool.true_and]
      exact ih hlast hsafe2 (some c) t

theorem noMatch_glue_email : ∀ (p : Option Char) (t : Str),
    noMatch try_email p ("[EMAIL]".toList ++ t) = noMatch try_email (some ']') t := by
  intro p t
  have he : "[EMAIL]".toList ++ t = '[' :: 'E' :: 'M' :: 'A' :: 'I' :: 'L' :: ']' :: t := rfl
  rw [he]
  have h0 : try_email p ('[' :: 'E' :: 'M' :: 'A' :: 'I' :: 'L' :: ']' :: t) = 0 := rfl
  have h1 : try_email (some '[') ('E' :: 'M' :: 'A' :: 'I' :: 'L' :: ']' :: t) = 0 := rfl
  have h2 : try_email (some 'E') ('M' :: 'A' :: 'I' :: 'L' :: ']' :: t) = 0 := rfl
  have h3 : try_email (some 'M') ('A' :: 'I' :: 'L' :: ']' :: t) = 0 := rfl
  have h4 : try_email (some 'A') ('I' :: 'L' :: ']' :: t) = 0 := rfl
  have h5 : try_email (some 'I') ('L' :: ']' :: t) = 0 := rfl
  have h6 : try_email (some 'L') (']' :: t) = 0 := rfl
  simp only [noMatch_cons, h0, h1, h2, h3, h4, h5, h6, beq_self_eq_true, Bool.true_and]

/-! ### No pattern matches its own or any later pass's output -/

theorem noMatch_sub_self (I : Pat) (tok : Str) (htokh : tok.head? = some '[')
    (htokc : ∀ p t, noMatch I.tryf p (tok ++ t) = noMatch I.tryf (some ']') t)
    (s : Str) : noMatch I.tryf none (subScan I.tryf tok s) = true :=
  noMatch_subScan_self I tok htokh htokc s.length none s (le_refl _)

theorem noMatch_sub_other (I J : Pat) (tok : Str) (htokh : tok.head? = some '[')
    (htokc : ∀ p t, noMatch I.tryf p (tok ++ t) = noMatch I.tryf (some ']') t)
    (s : Str) (h : noMatch I.tryf none s = true) :
    noMatch I.tryf none (subScan J.tryf tok s) = true :=
  noMatch_subScan_other I J tok htokh htokc s.length none s (le_refl _) h

theorem substituteAll_noMatch_ssn (x : Str) :
    noMatch try_ssn none (substituteAll x) = true := by
  have h1 : noMatch try_ssn none (sub_ssn x) = true :=
    noMatch_sub_self ssnPat "[SSN]".toList (by decide)
      (noMatch_glue_of_zero try_ssn try_ssn_zero "[SSN]".toList (by decide) (by decide)) x
  have h2 : noMatch try_ssn none (sub_mrn (sub_ssn x)) = true :=
    noMatch_sub_other ssnPat mrnPat "[MRN]".toList (by decide)
      (noMatch_glue_of_zero try_ssn try_ssn_zero "[MRN]".toList (by decide) (by decide))
      _ h1
  have h3 : noMatch try_ssn none (sub_date (sub_mrn (sub_ssn x))) = true :=
    noMatch_sub_other ssnPat datePat "[DATE]".toList (by decide)
      (noMatch_glue_of_zero try_ssn try_ssn_zero "[DATE]".toList (by decide) (by decide))
      _ h2
  have h4 : noMatch try_ssn none (sub_name (sub_date (sub_mrn (sub_ssn x)))) = true :=
    noMatch_sub_other ssnPat namePat "[PATIENT_NAME]".toList (by decide)
      (noMatch_glue_of_zero try_ssn try_ssn_zero "[PATIENT_NAME]".toList
        (by decide) (by decide)) _ h3
  have h5 : noMatch try_ssn none
      (sub_phone (sub_name (sub_date (sub_mrn (sub_ssn x))))) = true :=
    noMatch_sub_other ssnPat phonePat "[PHONE]".toList (by decide)
      (noMatch_glue_of_zero try_ssn try_ssn_zero "[PHONE]".toList (by decide) (by decide))
      _ h4
  exact noMatch_sub_other ssnPat emailPat "[EMAIL]".toList (by decide)
    (noMatch_glue_of_zero try_ssn try_ssn_zero "[EMAIL]".toList (by decide) (by decide))
    _ h5

theorem substituteAll_noMatch_mrn (x : Str) :
    noMatch try_mrn none (substituteAll x) = true := by
  have h2 : noMatch try_mrn none (sub_mrn (sub_ssn x)) = true :=
    noMatch_sub_self mrnPat "[MRN]".toList (by decide)
      (noMatch_glue_of_zero try_mrn try_mrn_zero "[MRN]".toList (by decide) (by decide)) _
  have h3 : noMatch try_mrn none (sub_date (sub_mrn (sub_ssn x))) = true :=
    noMatch_sub_other mrnPat datePat "[DATE]".toList (by decide)
      (noMatch_glue_of_zero try_mrn try_mrn_zero "[DATE]".toList (by decide) (by decide))
      _ h2
  have h4 : noMatch try_mrn none (sub_name (sub_date (sub_mrn (sub_ssn x)))) = true :=
    noMatch_sub_other mrnPat namePat "[PATIENT_NAME]".toList (by decide)
      (noMatch_glue_of_zero try_mrn try_mrn_zero "[PATIENT_NAME]".toList
        (by decide) (by decide)) _ h3
  have h5 : noMatch try_mrn none
      (sub_phone (sub_name (sub_date (sub_mrn (sub_ssn x))))) = true :=
    noMatch_sub_other mrnPat phonePat "[PHONE]".toList (by decide)
      (noMatch_glue_of_zero try_mrn try_mrn_zero "[PHONE]".toList (by decide) (by decide))
      _ h4
  exact noMatch_sub_other mrnPat emailPat "[EMAIL]".toList (by decide)
    (noMatch_glue_of_zero try_mrn try_mrn_zero "[EMAIL]".toList (by decide) (by decide))
    _ h5

theorem substituteAll_noMatch_date (x : Str) :
    noMatch try_date none (substituteAll x) = true := by
  have h3 : noMatch try_date none (sub_date (sub_mrn (sub_ssn x))) = true :=
    noMatch_sub_self datePat "[DATE]".toList (by decide)
      (noMatch_glue_of_zero try_date try_date_zero "[DATE]".toList (by decide) (by decide)) _
  have h4 : noMatch try_date none (sub_name (sub_date (sub_mrn (sub_ssn x)))) = true :=
    noMatch_sub_other datePat namePat "[PATIENT_NAME]".toList (by decide)
      (noMatch_glue_of_zero try_date try_date_zero "[PATIENT_NAME]".toList
        (by decide) (by decide)) _ h3
  have h5 : noMatch try_date none
      (sub_phone (sub_name (sub_date (sub_mrn (sub_ssn x))))) = true :=
    noMatch_sub_other datePat phonePat "[PHONE]".toList (by decide)
      (noMatch_glue_of_zero try_date try_date_zero "[PHONE]".toList (by decide) (by decide))
      _ h4
  exact noMatch_sub_other datePat emailPat "[EMAIL]".toList (by decide)
    (noMatch_glue_of_zero try_date try_date_zero "[EMAIL]".toList (by decide) (by decide))
    _ h5

theorem substituteAll_noMatch_name (x : Str) :
    noMatch try_name none (substituteAll x) = true := by
  have h4 : noMatch try_name none (sub_name (sub_date (sub_mrn (sub_ssn x)))) = true :=
    noMatch_sub_self namePat "[PATIENT_NAME]".toList (by decide)
      (noMatch_glue_name "[PATIENT_NAME]".toList (by decide) (by decide)) _
  have h5 : noMatch try_name none
      (sub_phone (sub_name (sub_date (sub_mrn (sub_ssn x))))) = true :=
    noMatch_sub_other namePat phonePat "[PHONE]".toList (by decide)
      (noMatch_glue_name "[PHONE]".toList (by decide) (by decide)) _ h4
  exact noMatch_sub_other namePat emailPat "[EMAIL]".toList (by decide)
    (noMatch_glue_name "[EMAIL]".toList (by decide) (by decide)) _ h5

theorem substituteAll_noMatch_phone (x : Str) :
    noMatch try_phone none (substituteAll x) = true := by
  have h5 : noMatch try_phone none
      (sub_phone (sub_name (sub_date (sub_mrn (sub_ssn x))))) = true :=
    noMatch_sub_self phonePat "[PHONE]".toList (by decide)
      (noMatch_glue_of_zero try_phone try_phone_zero "[PHONE]".toList
        (by decide) (by decide)) _
  exact noMatch_sub_other phonePat emailPat "[EMAIL]".toList (by decide)
    (noMatch_glue_of_zero try_phone try_phone_zero "[EMAIL]".toList (by decide) (by decide))
    _ h5

theorem substituteAll_noMatch_email (x : Str) :
    noMatch try_email none (substituteAll x) = true :=
  noMatch_sub_self emailPat "[EMAIL]".toList (by decide) noMatch_glue_email _

/-! ### Idempotence of the six-pass substitution -/

theorem substituteAll_idem (x : Str) :
    substituteAll (substituteAll x) = substituteAll x := by
  have e1 : sub_ssn (substituteAll x) = substituteAll x :=
    subScanF_of_noMatch try_ssn "[SSN]".toList (substituteAll x).length none _
      (le_refl _) (substituteAll_noMatch_ssn x)
  have e2 : sub_mrn (substituteAll x) = substituteAll x :=
    subScanF_of_noMatch try_mrn "[MRN]".toList (substituteAll x).length none _
      (le_refl _) (substituteAll_noMatch_mrn x)
  have e3 : sub_date (substituteAll x) = substituteAll x :=
    subScanF_of_noMatch try_date "[DATE]".toList (substituteAll x).length none _
      (le_refl _) (substituteAll_noMatch_date x)
  have e4 : sub_name (substituteAll x) = substituteAll x :=
    subScanF_of_noMatch try_name "[PATIENT_NAME]".toList (substituteAll x).length none _
      (le_refl _) (substituteAll_noMatch_name x)
  have e5 : sub_phone (substituteAll x) = substituteAll x :=
    subScanF_of_noMatch try_phone "[PHONE]".toList (substituteAll x).length none _
      (le_refl _) (substituteAll_noMatch_phone x)
  have e6 : sub_email (substituteAll x) = substituteAll x :=
    subScanF_of_noMatch try_email "[EMAIL]".toList (substituteAll x).length none _
      (le_refl _) (substituteAll_noMatch_email x)
  show sub_email (sub_phone (sub_name (sub_date (sub_mrn (sub_ssn (substituteAll x)))))) =
    substituteAll x
  rw [e1, e2, e3, e4, e5, e6]

/-! ### Nonemptiness of the passes -/

theorem subScanF_ne_nil (tryf : Option Char → Str → Nat) (tok : Str)
    (htok : tok.head? = some '[') (fuel : Nat) (p : Option Char) (c : Char) (cs : Str) :
    subScanF tryf tok fuel p (c :: cs) ≠ [] := by
  intro he
  rcases subScanF_headOut tryf tok htok fuel p (c :: cs) with hh | hh <;>
    rw [he] at hh <;> simp at hh

theorem substituteAll_ne_nil (x : Str) (hx : x ≠ []) : substituteAll x ≠ [] := by
  have h1 : sub_ssn x ≠ [] := by
    obtain ⟨c, cs, rfl⟩ := List.exists_cons_of_ne_nil hx
    exact subScanF_ne_nil try_ssn _ (by decide) _ _ _ _
  have h2 : sub_mrn (sub_ssn x) ≠ [] := by
    obtain ⟨c, cs, hc⟩ := List.exists_cons_of_ne_nil h1
    rw [hc]
    exact subScanF_ne_nil try_mrn _ (by decide) _ _ _ _
  have h3 : sub_date (sub_mrn (sub_ssn x)) ≠ [] := by
    obtain ⟨c, cs, hc⟩ := List.exists_cons_of_ne_nil h2
    rw [hc]
    exact subScanF_ne_nil try_date _ (by decide) _ _ _ _
  have h4 : sub_name (sub_date (sub_mrn (sub_ssn x))) ≠ [] := by
    obtain ⟨c, cs, hc⟩ := List.exists_cons_of_ne_nil h3
    rw [hc]
    exact subScanF_ne_nil try_name _ (by decide) _ _ _ _
  have h5 : sub_phone (sub_name (sub_date (sub_mrn (sub_ssn x)))) ≠ [] := by
    obtain ⟨c, cs, hc⟩ := List.exists_cons_of_ne_nil h4
    rw [hc]
    exact subScanF_ne_nil try_phone _ (by decide) _ _ _ _
  obtain ⟨c, cs, hc⟩ := List.exists_cons_of_ne_nil h5
  show sub_email (sub_phone (sub_name (sub_date (sub_mrn (sub_ssn x))))) ≠ []
  rw [hc]
  exact subScanF_ne_nil try_email _ (by decide) _ _ _ _

/-! ### Claims C5 and C6 — sanitizer algebra -/

/-- Claim C5: `_sanitize_ehr_content` is idempotent on its own output for
every input whose substituted form does not exceed 500 characters (i.e. the
truncation branch is not taken): sanitizing a sanitized string returns it
unchanged. -/
theorem sanitize_ehr_content_idem (x : Str)
    (h : (substituteAll x).length ≤ 500) :
    sanitize_ehr_content (sanitize_ehr_content x) = sanitize_ehr_content x := by
  by_cases hx : x = []
  · subst hx
    rfl
  · have hy : sanitize_ehr_content x = substituteAll x := by
      simp only [sanitize_ehr_content]
      rw [if_neg hx, if_neg (by omega)]
    rw [hy]
    have hynil : substituteAll x ≠ [] := substituteAll_ne_nil x hx
    simp only [sanitize_ehr_content]
    rw [if_neg hynil, substituteAll_idem x, if_neg (by omega)]

/-- Witness for claim C5 at a concrete input containing a phone number. -/
theorem sanitize_ehr_content_idem_witness :
    (substituteAll "Call 555-123-4567 now".toList).length ≤ 500 ∧
    sanitize_ehr_content (sanitize_ehr_content "Call 555-123-4567 now".toList) =
      sanitize_ehr_content "Call 555-123-4567 now".toList :=
  ⟨by decide, sanitize_ehr_content_idem "Call 555-123-4567 now".toList (by decide)⟩

/-- The raw SSN shape `\d{3}-\d{2}-\d{4}` (no word-boundary requirement)
anchored at the head of the string, following the claim's wording. -/
def ssnShapeAt : Str → Bool
  | c0 :: c1 :: c2 :: c3 :: c4 :: c5 :: c6 :: c7 :: c8 :: c9 :: c10 :: _ =>
    isDigitC c0 && isDigitC c1 && isDigitC c2 && c3 == '-' && isDigitC c4 &&
      isDigitC c5 && c6 == '-' && isDigitC c7 && isDigitC c8 && isDigitC c9 &&
      isDigitC c10
  | _ => false

/-- The claim's "contains an SSN-shaped substring" (at any position). -/
def containsSSNShape : Str → Bool
  | [] => false
  | c :: cs => ssnShapeAt (c :: cs) || containsSSNShape cs

/-- Claim C6 counterexample: the sanitizer's six patterns are word-boundary
anchored, so the digit-run input below passes through unchanged even though
it contains an SSN-shaped (`\d{3}-\d{2}-\d{4}`) substring: the output of
`_sanitize_ehr_content` can contain an SSN-shaped substring. -/
theorem sanitize_ssn_shape_counterexample :
    sanitize_ehr_content "123-45-678123-45-6789".toList =
      "123-45-678123-45-6789".toList ∧
    containsSSNShape (sanitize_ehr_content "123-45-678123-45-6789".toList) = true :=
  ⟨by decide, by decide⟩

/-- Claim C6 (amended): for every input whose substituted form is not
truncated, the output of `_sanitize_ehr_content` contains no word-boundary-
delimited SSN match and no word-boundary-delimited e-mail match at any
position — re-running either substitution on the output finds nothing. -/
theorem sanitize_no_ssn_email_match (x : Str)
    (h : (substituteAll x).length ≤ 500) :
    noMatch try_ssn none (sanitize_ehr_content x) = true ∧
    noMatch try_email none (sanitize_ehr_content x) = true := by
  by_cases hx : x = []
  · subst hx
    exact ⟨rfl, rfl⟩
  · have hy : sanitize_ehr_content x = substituteAll x := by
      simp only [sanitize_ehr_content]
      rw [if_neg hx, if_neg (by omega)]
    rw [hy]
    exact ⟨substituteAll_noMatch_ssn x, substituteAll_noMatch_email x⟩

/-- Witness for the amended claim C6 at a concrete input containing an SSN
and an e-mail address. -/
theorem sanitize_no_ssn_email_match_witness :
    (substituteAll "ID 123-45-6789 mail bob@x.org".toList).length ≤ 500 ∧
    (noMatch try_ssn none
        (sanitize_ehr_content "ID 123-45-6789 mail bob@x.org".toList) = true ∧
      noMatch try_email none
        (sanitize_ehr_content "ID 123-45-6789 mail bob@x.org".toList) = true) :=
  ⟨by decide,
    sanitize_no_ssn_email_match "ID 123-45-6789 mail bob@x.org".toList (by decide)⟩

end AIObs
